import Mathlib

/-!
# Pascal's triangle (`main.go`): a shallow embedding and its verification

The Go program computes factorials and binomial coefficients on `math/big`
integers and builds Pascal's triangle from them.  The embedding below follows
`main.go` function by function.

* `uint64` values are natural numbers; the arithmetic that can leave the 64-bit
  range is written with an explicit `% 2 ^ 64` (`wrap64`), and the conversion
  `int64(n)` / `int(n)` (64-bit platform) is `toInt64`.
* `*big.Int` values are mathematical integers (`Int`); a nil pointer in a
  freshly made slice is `none`.
* Code that can panic or loop returns a `Run`: `done` with the result,
  `crash` for a run-time panic, `outOfFuel` when the step budget is used up.
-/

namespace PascalGo

/-! ## Machine integers -/

/-- Reduction of a natural number to the `uint64` range (wrap-around of `+`, `*`). -/
def wrap64 (n : Nat) : Nat := n % 2 ^ 64

/-- The Go conversions `int64(n)` and `int(n)` of a `uint64` value `n`
(two's complement, 64-bit `int`). -/
def toInt64 (n : Nat) : Int :=
  if n % 2 ^ 64 < 2 ^ 63 then ((n % 2 ^ 64 : Nat) : Int)
  else ((n % 2 ^ 64 : Nat) : Int) - 2 ^ 64

/-! ## Numeric engine (`main.go` lines 13-47) -/

/-- The inner closure `F` of `factorial` (lines 21-28): `if n <= 1 { return a }`,
otherwise `bigN.SetInt64(int64(n)); bigA.Mul(a, bigN); return F(n-1, bigA)`. -/
def F : Nat → Int → Int
  | 0, a => a
  | n + 1, a => if n + 1 ≤ 1 then a else F n (a * toInt64 (n + 1))

/-- Function `factorial(x uint64) *big.Int` (lines 16-30). -/
def factorial (x : Nat) : Int :=
  if x ≤ 1 then 1 else F x 1

/-- Function `nchoosek(n, k uint64) *big.Int` (lines 35-47).  `big.Int.Div` is
Euclidean division, which is what `/` on `Int` is; it panics on a zero divisor,
which `factorial_ne_zero` below excludes for every `uint64` argument. -/
def nchoosek (n k : Nat) : Int :=
  if k ≥ n then 1
  else factorial n / (factorial k * factorial (n - k))

/-! ## Outcomes of running code -/

/-- Outcome of running a piece of Go code under a step budget. -/
inductive Run (α : Type) where
  /-- the code returned this value -/
  | done : α → Run α
  /-- the code stopped with a run-time panic -/
  | crash : Run α
  /-- the step budget was used up before the code returned -/
  | outOfFuel : Run α
  deriving DecidableEq, Repr

/-- Sequencing: run `k` on the value of `x`, keep a panic or an exhausted budget. -/
def Run.andThen {α β : Type} (x : Run α) (k : α → Run β) : Run β :=
  match x with
  | .done a => k a
  | .crash => .crash
  | .outOfFuel => .outOfFuel

/-- The built-in `make([]T, len, len)` with a `uint64` length: a slice of `len`
zero values; a length that is not representable as an `int` is a run-time panic. -/
def makeSlice {α : Type} (len : Nat) (zero : α) : Run (List α) :=
  if len < 2 ^ 63 then .done (List.replicate len zero) else .crash

/-- Indexed assignment `s[i] = v`: a run-time panic when `i` is out of range. -/
def setIndex {α : Type} (s : List α) (i : Nat) (v : α) : Run (List α) :=
  if i < s.length then .done (s.set i v) else .crash

/-! ## Triangle model (`main.go` lines 49-88) -/

/-- The struct `Pascal` (lines 50-53).  An entry of `T` is a `*big.Int`:
`none` is the nil pointer a freshly made row holds. -/
structure Pascal where
  Depth : Nat
  T : List (List (Option Int))
  deriving DecidableEq, Repr

/-- The entry loop (lines 66-70 with `r = 0`, `i = n`; lines 75-79 with `r = i`),
entered with the current value of `j`:
`for ; j <= i; j++ { bigi.Set(nchoosek(i, j)); p.T[r][j] = bigi }`. -/
def fillRow : Nat → Nat → Nat → Nat → List (List (Option Int)) → Run (List (List (Option Int)))
  | 0, _, _, _, _ => .outOfFuel
  | fuel + 1, r, i, j, T =>
    if j ≤ i then
      match T[r]? with
      | none => .crash
      | some row =>
        (setIndex row j (some (nchoosek i j))).andThen fun row1 =>
        (setIndex T r row1).andThen fun T1 =>
        fillRow fuel r i (wrap64 (j + 1)) T1
    else .done T

/-- The row loop (lines 73-80), entered with the current value of `i`:
`for ; i <= n; i++ { p.T[i] = make([]*big.Int, i+1, i+1); for j = 0; ... }`. -/
def fillRows : Nat → Nat → Nat → List (List (Option Int)) → Run (List (List (Option Int)))
  | 0, _, _, _ => .outOfFuel
  | fuel + 1, n, i, T =>
    if i ≤ n then
      (makeSlice (wrap64 (i + 1)) (none : Option Int)).andThen fun row =>
      (setIndex T i row).andThen fun T1 =>
      (fillRow fuel i i 0 T1).andThen fun T2 =>
      fillRows fuel n (wrap64 (i + 1)) T2
    else .done T

/-- Function `NewPascal(n uint64, only bool) *Pascal` (lines 56-83); `fuel` bounds
the number of loop iterations that may be nested or follow each other. -/
def NewPascal (fuel : Nat) (n : Nat) (only : Bool) : Run Pascal :=
  if only then
    (makeSlice 1 ([] : List (Option Int))).andThen fun T0 =>
    (makeSlice (wrap64 (n + 1)) (none : Option Int)).andThen fun row =>
    (setIndex T0 0 row).andThen fun T1 =>
    (fillRow fuel 0 n 0 T1).andThen fun T2 =>
    .done { Depth := 1, T := T2 }
  else
    (makeSlice (wrap64 (n + 1)) ([] : List (Option Int))).andThen fun T0 =>
    (fillRows fuel n 0 T0).andThen fun T1 =>
    .done { Depth := n, T := T1 }

/-- Method `Max` (lines 86-88): `nchoosek(p.Depth, p.Depth/2)`. -/
def Pascal.Max (p : Pascal) : Int :=
  nchoosek p.Depth (p.Depth / 2)

/-- The row `i` of Pascal's triangle as the data model describes it:
the entries `nchoosek(i, 0..i)`. -/
def rowOf (i : Nat) : List (Option Int) :=
  (List.range (i + 1)).map fun j => some (nchoosek i j)

/-- The rows `0..d` of Pascal's triangle as the data model describes them. -/
def rowsOf (d : Nat) : List (List (Option Int)) :=
  (List.range (d + 1)).map rowOf

/-! ## Renderers (`main.go` lines 90-168) -/

/-- Wrap-around of `int` arithmetic (64-bit two's complement). -/
def wrapInt (z : Int) : Int := (z + 2 ^ 63) % 2 ^ 64 - 2 ^ 63

/-- Method `(*big.Int).String()`: the decimal text of the value, `<nil>` for a
nil pointer. -/
def bigString : Option Int → String
  | none => "<nil>"
  | some z => toString z

/-- The text made of `n` copies of `s`. -/
def copies (s : String) : Nat → String
  | 0 => ""
  | n + 1 => s ++ copies s n

/-- Library function `strings.Repeat(s, count)`: `count` copies of `s`; it panics
when `count` is negative or the length of the result overflows an `int`.  All
texts repeated here are ASCII, so `len(s)` is the number of characters. -/
def Repeat (s : String) (count : Int) : Run String :=
  if count < 0 then .crash
  else if 2 ^ 63 ≤ s.length * count.toNat then .crash
  else .done (copies s count.toNat)

/-- The value loop of `ToText` (lines 104-106): each value, then two tabs. -/
def textValues : List (Option Int) → String
  | [] => ""
  | j :: rest => (bigString j ++ "\t\t") ++ textValues rest

/-- The body of the row loop of `ToText` (lines 99-107) for row `row` at index
`i`: the text it writes to the tabwriter. -/
def textRow (rowHeaders : Bool) (Depth i : Nat) (row : List (Option Int)) : Run String :=
  let hdr := if rowHeaders then toString i ++ ":\t" else ""
  let jj := toInt64 (wrap64 (wrap64 (2 * Depth) + 1))
  (Repeat "\t" (wrapInt (toInt64 Depth - (i : Int)))).andThen fun lead =>
  (Repeat "\t" (wrapInt (jj - wrapInt (toInt64 Depth - (i : Int))))).andThen fun trail =>
  .done (hdr ++ (lead ++ (textValues row ++ (trail ++ "\n"))))

/-- The row loop of `ToText` (line 98), `for i, row := range p.T`, entered at
index `i` with the rows that are left. -/
def textRows (rowHeaders : Bool) (Depth : Nat) : Nat → List (List (Option Int)) → Run String
  | _, [] => .done ""
  | i, row :: rest =>
    (textRow rowHeaders Depth i row).andThen fun s =>
    (textRows rowHeaders Depth (i + 1) rest).andThen fun t =>
    .done (s ++ t)

/-- Method `ToText` (lines 91-112), given the current value of the package
variable `width`: the value `width` has afterwards, which is the cell width
handed to the tabwriter, and the text written to the tabwriter.
`tabwriter.NewWriter` (line 96) panics on a negative cell width, before any row
is written.  The column layout the tabwriter makes of the text is the
library's and is not modelled. -/
def Pascal.ToText (p : Pascal) (width : Int) (rowHeaders : Bool) : Run (Int × String) :=
  let width1 := if width = 0 then ((bigString (some p.Max)).length : Int) + 1 else width
  if width1 < 0 then .crash
  else
    (textRows rowHeaders p.Depth 0 p.T).andThen fun s =>
    .done (width1, s)

/-- One step of the value loop of `ToHTML` (lines 152-158).  `j.Cmp(max)` on a
nil `j` is a nil dereference. -/
def htmlValue (i : Nat) (max : Int) (j : Option Int) : Run String :=
  if i = 0 then
    .done ("<td id=\"central-column\">" ++ bigString j ++ "</td><td></td>")
  else
    match j with
    | none => .crash
    | some v =>
      if v = max then
        .done ("<td id=\"biggest-number\" style=\"color: red;\">" ++ bigString j ++ "</td><td></td>")
      else
        .done ("<td>" ++ bigString j ++ "</td><td></td>")

/-- The value loop of `ToHTML` (lines 151-159). -/
def htmlValues (i : Nat) (max : Int) : List (Option Int) → Run String
  | [] => .done ""
  | j :: rest =>
    (htmlValue i max j).andThen fun s =>
    (htmlValues i max rest).andThen fun t =>
    .done (s ++ t)

/-- The body of the row loop of `ToHTML` (lines 145-160) for row `row` at index
`i`: the text it appends to the builder. -/
def htmlRow (rowHeaders : Bool) (Depth : Nat) (max : Int) (i : Nat)
    (row : List (Option Int)) : Run String :=
  let hdr := if rowHeaders then "<th scope=\"row\">" ++ toString i ++ "</th>" else ""
  let jj := toInt64 (wrap64 (wrap64 (2 * Depth) + 1))
  (Repeat "<td></td>" (wrapInt (toInt64 Depth - (i : Int)))).andThen fun lead =>
  (htmlValues i max row).andThen fun vals =>
  (Repeat "<td></td>" (wrapInt (jj - wrapInt (toInt64 Depth - (i : Int))))).andThen fun trail =>
  .done ("<tr>" ++ (hdr ++ (lead ++ (vals ++ (trail ++ "</tr>\n")))))

/-- The row loop of `ToHTML` (line 144), entered at index `i`. -/
def htmlRows (rowHeaders : Bool) (Depth : Nat) (max : Int) :
    Nat → List (List (Option Int)) → Run String
  | _, [] => .done ""
  | i, row :: rest =>
    (htmlRow rowHeaders Depth max i row).andThen fun s =>
    (htmlRows rowHeaders Depth max (i + 1) rest).andThen fun t =>
    .done (s ++ t)

/-- The text `ToHTML` writes before the rows (lines 118-142). -/
def htmlHead (Depth : Nat) (max : Int) : String :=
  "\n<!DOCTYPE html>\n<html>\n<body>\n<h1>Pascal triangle of depth " ++ toString Depth ++
  "</h1>\n<nav>\n\t<ul>\n\t\t<li><a href=\"#central-column\">Central column</a></li>\n" ++
  "\t\t<li><a href=\"#biggest-number\">Biggest number</a></li>\n\t</ul>\n</nav>\n" ++
  "<p>Biggest number is " ++ bigString (some max) ++ ".</p>\n<p>It has " ++
  toString (bigString (some max)).length ++ " digits.</p>\n" ++
  "<style>\n\ttable \x7b\n\t\tempty-cells: show;\n\t\x7d\n\ttable, td, th \x7b\n" ++
  "\t\ttext-align: right;\n\t\tfont-size: 9px;\n\t\x7d\n</style>\n" ++
  "<table><tbody>\n"

/-- Method `ToHTML` (lines 115-168). -/
def Pascal.ToHTML (p : Pascal) (rowHeaders : Bool) : Run String :=
  let max := p.Max
  (htmlRows rowHeaders p.Depth max 0 p.T).andThen fun s =>
  .done (htmlHead p.Depth max ++ (s ++ "</tbody>\n</table>\n</body>\n</html>"))

/-! ## The cell layout the renderers are specified to produce -/

/-- A cell of a rendered row: the row header, an empty cell, or a value. -/
inductive Cell where
  | header (i : Nat)
  | blank
  | value (v : Option Int)
  deriving DecidableEq, Repr

/-- Each value of the row in order, each followed by one empty cell. -/
def valueCells : List (Option Int) → List Cell
  | [] => []
  | v :: rest => Cell.value v :: Cell.blank :: valueCells rest

/-- The cell sequence of row `i` as the layout is described: the optional row
header, `Depth - i` empty leading cells, each value followed by one empty cell,
`(2 * Depth + 1) - (Depth - i)` empty trailing cells. -/
def rowCells (rowHeaders : Bool) (Depth i : Nat) (row : List (Option Int)) : List Cell :=
  (if rowHeaders then [Cell.header i] else []) ++
    (List.replicate (Depth - i) Cell.blank ++
      (valueCells row ++ List.replicate ((2 * Depth + 1) - (Depth - i)) Cell.blank))

/-- A cell as `ToText` writes it: its text, then a tab. -/
def Cell.asText : Cell → String
  | .header i => toString i ++ ":" ++ "\t"
  | .blank => "\t"
  | .value v => bigString v ++ "\t"

/-- A cell as `ToHTML` writes it in row `i`: a table cell element. -/
def Cell.asHTML (i : Nat) (max : Int) : Cell → String
  | .header k => "<th scope=\"row\">" ++ toString k ++ "</th>"
  | .blank => "<td></td>"
  | .value v =>
    if i = 0 then "<td id=\"central-column\">" ++ bigString v ++ "</td>"
    else if v = some max then
      "<td id=\"biggest-number\" style=\"color: red;\">" ++ bigString v ++ "</td>"
    else "<td>" ++ bigString v ++ "</td>"

/-- The texts of a sequence of cells, one after the other. -/
def writeCells (f : Cell → String) : List Cell → String
  | [] => ""
  | c :: cs => f c ++ writeCells f cs

/-- The 0-based position, after the optional row header, at which the layout
puts entry `j` of row `i`. -/
def cellPos (Depth i j : Nat) : Nat := (Depth - i) + 2 * j

/-- The line `ToText` is specified to write for row `i`: its cells, each ended
by a tab, then a newline. -/
def textLine (rowHeaders : Bool) (Depth i : Nat) (row : List (Option Int)) : String :=
  writeCells Cell.asText (rowCells rowHeaders Depth i row) ++ "\n"

/-- The table row `ToHTML` is specified to write for row `i`: its cells as
table cell elements inside a `tr` element. -/
def htmlLine (rowHeaders : Bool) (Depth : Nat) (max : Int) (i : Nat)
    (row : List (Option Int)) : String :=
  "<tr>" ++ (writeCells (Cell.asHTML i max) (rowCells rowHeaders Depth i row) ++ "</tr>\n")

/-- The lines of the rows one after the other, the first row at index `i`. -/
def writeRows (f : Nat → List (Option Int) → String) :
    Nat → List (List (Option Int)) → String
  | _, [] => ""
  | i, row :: rest => f i row ++ writeRows f (i + 1) rest

/-! ## The table cells of the HTML render -/

/-- Whether the text of an element opens with `<td id="…"` for the given id. -/
def hasId (id element : String) : Bool :=
  ("<td id=\"" ++ id ++ "\"").data.isPrefixOf element.data

/-- The elements `ToHTML` writes for row `i`, in order. -/
def htmlElements (rowHeaders : Bool) (Depth : Nat) (max : Int) (i : Nat)
    (row : List (Option Int)) : List String :=
  (rowCells rowHeaders Depth i row).map (Cell.asHTML i max)

/-- The elements `ToHTML` writes for the rows, the first row at index `i`. -/
def htmlTable (rowHeaders : Bool) (Depth : Nat) (max : Int) :
    Nat → List (List (Option Int)) → List String
  | _, [] => []
  | i, row :: rest =>
    htmlElements rowHeaders Depth max i row ++ htmlTable rowHeaders Depth max (i + 1) rest

/-! ## The command (`main.go` lines 170-263) -/

/-- The flag variables (lines 170-178) as `flag.Parse()` leaves them. -/
structure Flags where
  headers : Bool
  width : Int
  format : String
  only : Bool
  fact : Bool
  biggest : Bool
  choose : Bool
  deriving DecidableEq, Repr

/-- The verb `%v` applied to a row (line 258): the values, which print
themselves in decimal, separated by blanks inside square brackets. -/
def rawRow (row : List (Option Int)) : String :=
  "[" ++ " ".intercalate (row.map bigString) ++ "]"

/-- The loop of the `raw` format (lines 254-259), entered at index `i`. -/
def rawRows (headers : Bool) : Nat → List (List (Option Int)) → String
  | _, [] => ""
  | i, row :: rest =>
    ((if headers then toString i ++ ":\t" else "") ++ (rawRow row ++ "\n")) ++
      rawRows headers (i + 1) rest

/-- Function `main` (lines 227-263): what it writes to standard output.
`arg0` and `arg1` are the results of `strconv.ParseUint` on the two positional
arguments (`none` for an error, on which `main` panics); `tabwriter` is the
layout the library `text/tabwriter` makes, for a cell width, of the text
written to it; `fuel` is the budget of `NewPascal`. -/
def main (tabwriter : Int → String → String) (fuel : Nat) (fl : Flags)
    (arg0 arg1 : Option Nat) : Run String :=
  match arg0 with
  | none => .crash
  | some v =>
    if fl.fact then .done (bigString (some (factorial v)) ++ "\n")
    else if fl.biggest then .done (bigString (some (nchoosek v (v / 2))) ++ "\n")
    else if fl.choose then
      match arg1 with
      | none => .crash
      | some k => .done (bigString (some (nchoosek v k)) ++ "\n")
    else
      (NewPascal fuel v fl.only).andThen fun p =>
      if fl.format = "html" then p.ToHTML fl.headers
      else if fl.format = "raw" then .done (rawRows fl.headers 0 p.T)
      else (p.ToText fl.width fl.headers).andThen fun r => .done (tabwriter r.1 r.2)

/-- What `main` does once no mode flag is set (lines 249-262): build the
triangle and write it in the selected format. -/
def renderTriangle (tabwriter : Int → String → String) (fuel : Nat) (fl : Flags)
    (v : Nat) : Run String :=
  (NewPascal fuel v fl.only).andThen fun p =>
  if fl.format = "html" then p.ToHTML fl.headers
  else if fl.format = "raw" then .done (rawRows fl.headers 0 p.T)
  else (p.ToText fl.width fl.headers).andThen fun r => .done (tabwriter r.1 r.2)

/-! ## The package-level scratch integers as explicit state (lines 13 and 32) -/

/-- The package-level `*big.Int` variables. -/
inductive Ref where
  | big1 | bigA | bigN | nbig | kbig | nmkbig | resbig
  deriving DecidableEq, Repr

/-- The contents of the package-level integers. -/
structure Scratch where
  big1 : Int
  bigA : Int
  bigN : Int
  nbig : Int
  kbig : Int
  nmkbig : Int
  resbig : Int
  deriving DecidableEq, Repr

/-- The value a pointer refers to. -/
def Scratch.get (s : Scratch) : Ref → Int
  | .big1 => s.big1
  | .bigA => s.bigA
  | .bigN => s.bigN
  | .nbig => s.nbig
  | .kbig => s.kbig
  | .nmkbig => s.nmkbig
  | .resbig => s.resbig

/-- Assignment of a value to the integer a pointer refers to. -/
def Scratch.set (s : Scratch) (r : Ref) (v : Int) : Scratch :=
  match r with
  | .big1 => { s with big1 := v }
  | .bigA => { s with bigA := v }
  | .bigN => { s with bigN := v }
  | .nbig => { s with nbig := v }
  | .kbig => { s with kbig := v }
  | .nmkbig => { s with nmkbig := v }
  | .resbig => { s with resbig := v }

/-- The closure `F` (lines 21-28) on the state: `a` is the pointer it is given,
the result is the pointer it returns and the state it leaves. -/
def FState : Nat → Ref → Scratch → Ref × Scratch
  | 0, a, s => (a, s)
  | n + 1, a, s =>
    if n + 1 ≤ 1 then (a, s)
    else
      let s1 := s.set .bigN (toInt64 (n + 1))
      let s2 := s1.set .bigA (s1.get a * s1.get .bigN)
      FState n .bigA s2

/-- Function `factorial` (lines 16-30) on the state. -/
def factorialState (x : Nat) (s : Scratch) : Ref × Scratch :=
  if x ≤ 1 then (.big1, s) else FState x .big1 s

/-- Function `nchoosek` (lines 35-47) on the state; `Div` panics on a zero
divisor. -/
def nchoosekState (n k : Nat) (s : Scratch) : Run (Ref × Scratch) :=
  if k ≥ n then .done (.big1, s)
  else
    let r1 := factorialState k s
    let s1 := r1.2.set .kbig (r1.2.get r1.1)
    let r2 := factorialState n s1
    let s2 := r2.2.set .nbig (r2.2.get r2.1)
    let r3 := factorialState (n - k) s2
    let s3 := r3.2.set .nmkbig (r3.2.get r3.1)
    let s4 := s3.set .resbig (s3.get .kbig * s3.get .nmkbig)
    if s4.get .resbig = 0 then .crash
    else .done (.resbig, s4.set .resbig (s4.get .nbig / s4.get .resbig))

/-! ## Facts about the machine integers -/

theorem toInt64_of_lt {n : Nat} (h : n < 2 ^ 63) : toInt64 n = (n : Int) := by
  have h1 : n % 2 ^ 64 = n := Nat.mod_eq_of_lt (by omega)
  unfold toInt64
  rw [h1, if_pos h]

theorem toInt64_ne_zero {n : Nat} (h0 : 0 < n) (h : n < 2 ^ 64) : toInt64 n ≠ 0 := by
  have h1 : n % 2 ^ 64 = n := Nat.mod_eq_of_lt h
  unfold toInt64
  rw [h1]
  split <;> omega

/-! ## Facts about `factorial` and `nchoosek` -/

theorem F_eq_mul_factorial (n : Nat) (hn : n < 2 ^ 63) (a : Int) :
    F n a = a * (n.factorial : Int) := by
  induction n generalizing a with
  | zero => simp [F]
  | succ m ih =>
    rcases Nat.eq_zero_or_pos m with h0 | hpos
    · subst h0; simp [F]
    · have hm : ¬ (m + 1 ≤ 1) := by omega
      rw [F, if_neg hm, ih (by omega), toInt64_of_lt hn, Nat.factorial_succ]
      push_cast
      ring

theorem factorial_eq (n : Nat) (hn : n < 2 ^ 63) : factorial n = (n.factorial : Int) := by
  unfold factorial
  split
  · rename_i h
    interval_cases n <;> simp
  · rw [F_eq_mul_factorial n hn, one_mul]

theorem F_ne_zero (n : Nat) (hn : n < 2 ^ 64) (a : Int) (ha : a ≠ 0) : F n a ≠ 0 := by
  induction n generalizing a with
  | zero => simpa [F] using ha
  | succ m ih =>
    rw [F]
    split
    · exact ha
    · exact ih (by omega) _ (mul_ne_zero ha (toInt64_ne_zero (by omega) hn))

/-- The divisor of `resbig.Div` is never zero, so `nchoosek` cannot panic. -/
theorem factorial_ne_zero (n : Nat) (hn : n < 2 ^ 64) : factorial n ≠ 0 := by
  unfold factorial
  split
  · exact one_ne_zero
  · exact F_ne_zero n hn 1 one_ne_zero

theorem nchoosek_eq_choose (n k : Nat) (hn : n < 2 ^ 63) (hk : k ≤ n) :
    nchoosek n k = (n.choose k : Int) := by
  unfold nchoosek
  split
  · rename_i h
    have : k = n := le_antisymm hk h
    subst this
    simp
  · rw [factorial_eq n hn, factorial_eq k (by omega), factorial_eq (n - k) (by omega),
      Nat.choose_eq_factorial_div_factorial hk]
    push_cast
    rfl

theorem F_eq_mul_F_one (n : Nat) (a : Int) : F n a = a * F n 1 := by
  induction n generalizing a with
  | zero => simp [F]
  | succ m ih =>
    rw [F, F]
    split
    · simp
    · rw [ih (a * toInt64 (m + 1)), ih (1 * toInt64 (m + 1))]
      ring

/-- The product `factorial` builds, for every argument: each step multiplies by
the converted counter `int64(n)`. -/
theorem factorial_eq_toInt64_mul (n : Nat) (hn : 2 ≤ n) :
    factorial n = toInt64 n * factorial (n - 1) := by
  obtain ⟨m, rfl⟩ : ∃ m, n = m + 1 := ⟨n - 1, by omega⟩
  have h1 : ¬ (m + 1 ≤ 1) := by omega
  rw [factorial, if_neg h1, F, if_neg h1, F_eq_mul_F_one, one_mul, Nat.add_sub_cancel]
  congr 1
  unfold factorial
  split
  · rename_i h
    have hm : m = 1 := by omega
    subst hm
    simp [F]
  · rfl

theorem nchoosek_of_ge_self (n : Nat) : nchoosek n n = 1 := by
  simp [nchoosek]

/-! ## The edges of the 64-bit range -/

theorem toInt64_two_pow_63 (n : Nat) (hn : n = 2 ^ 63) : toInt64 n = -(2 ^ 63) := by
  subst hn
  unfold toInt64
  norm_num

/-- At `2 ^ 63` the first factor `int64(n)` is `-2 ^ 63`: the product `F` builds is
negative. -/
theorem factorial_succ_of_wrap (m : Nat) (hm : m + 1 = 2 ^ 63) :
    factorial (m + 1) = -(2 ^ 63) * (m.factorial : Int) := by
  have h1 : ¬ (m + 1 ≤ 1) := by omega
  rw [factorial, if_neg h1, F, if_neg h1, F_eq_mul_factorial m (by omega),
    toInt64_two_pow_63 (m + 1) hm, one_mul]

theorem factorial_two_pow_63_neg : factorial (2 ^ 63) < 0 := by
  have h := factorial_succ_of_wrap (2 ^ 63 - 1) (by norm_num)
  have h2 : (2 ^ 63 - 1 + 1 : Nat) = 2 ^ 63 := by norm_num
  rw [h2] at h
  rw [h]
  have hpos : (0 : Int) < ((2 ^ 63 - 1 : Nat).factorial : Int) := by
    exact_mod_cast Nat.factorial_pos _
  have h63 : (0 : Int) < 2 ^ 63 := by norm_num
  nlinarith

/-- With `n = 2 ^ 64 - 1` the length `n + 1` wraps to `0` and the first indexed
assignment panics, in both modes; with `n = 2 ^ 63 - 1` the length is not
representable as an `int` and `make` panics. -/
theorem NewPascal_crash_at_edges (fuel : Nat) (only : Bool) :
    NewPascal (fuel + 1) (2 ^ 64 - 1) only = .crash ∧
    NewPascal fuel (2 ^ 63 - 1) only = .crash := by
  cases only
  · constructor
    · simp [NewPascal, fillRows, makeSlice, setIndex, Run.andThen, wrap64]
    · simp [NewPascal, makeSlice, Run.andThen, wrap64]
  · constructor
    · simp [NewPascal, fillRow, makeSlice, setIndex, Run.andThen, wrap64]
    · simp [NewPascal, makeSlice, Run.andThen, wrap64]

/-! ## Claims C1-C4 -/

/-- C1: `factorial n` is `1` for `n ≤ 1`; for `n` taken as a natural number whose
conversion `int64(n)` keeps its value (`n < 2 ^ 63`), `factorial n` is the
mathematical factorial `n!`, and `factorial n = n * factorial (n - 1)` for
`n ≥ 2`. -/
theorem factorial_spec (n : Nat) :
    (n ≤ 1 → factorial n = 1) ∧
    (n < 2 ^ 63 →
      factorial n = (n.factorial : Int) ∧
      (2 ≤ n → factorial n = (n : Int) * factorial (n - 1))) := by
  refine ⟨?_, ?_⟩
  · intro h
    simp [factorial, h]
  · intro hn
    refine ⟨factorial_eq n hn, ?_⟩
    intro h
    rw [factorial_eq n hn, factorial_eq (n - 1) (by omega)]
    obtain ⟨m, rfl⟩ : ∃ m, n = m + 1 := ⟨n - 1, by omega⟩
    rw [Nat.factorial_succ]
    simp

theorem factorial_spec_witness :
    factorial 0 = 1 ∧
    factorial 5 = ((5 : Nat).factorial : Int) ∧
    factorial 5 = ((5 : Nat) : Int) * factorial (5 - 1) ∧
    factorial 5 = 120 :=
  ⟨(factorial_spec 0).1 (by decide),
   ((factorial_spec 5).2 (by decide)).1,
   ((factorial_spec 5).2 (by decide)).2 (by decide),
   by decide⟩

/-- C2: for `k < n`, `nchoosek n k` is `factorial n / (factorial k * factorial (n - k))`;
on the range where `factorial` is exact (`n < 2 ^ 63`) the divisor divides
`factorial n` with remainder `0`, and the quotient is the binomial coefficient
`C(n, k)`. -/
theorem nchoosek_spec (n k : Nat) (hk : k < n) :
    nchoosek n k = factorial n / (factorial k * factorial (n - k)) ∧
    (n < 2 ^ 63 →
      factorial k * factorial (n - k) ∣ factorial n ∧
      factorial n % (factorial k * factorial (n - k)) = 0 ∧
      nchoosek n k = (n.choose k : Int)) := by
  refine ⟨?_, ?_⟩
  · simp [nchoosek, Nat.not_le.mpr hk]
  · intro hn
    have hdvd : factorial k * factorial (n - k) ∣ factorial n := by
      rw [factorial_eq n hn, factorial_eq k (by omega), factorial_eq (n - k) (by omega)]
      exact_mod_cast Nat.factorial_mul_factorial_dvd_factorial hk.le
    exact ⟨hdvd, Int.emod_eq_zero_of_dvd hdvd, nchoosek_eq_choose n k hn hk.le⟩

theorem nchoosek_spec_witness :
    nchoosek 6 2 = factorial 6 / (factorial 2 * factorial (6 - 2)) ∧
    (factorial 2 * factorial (6 - 2) ∣ factorial 6 ∧
      factorial 6 % (factorial 2 * factorial (6 - 2)) = 0 ∧
      nchoosek 6 2 = ((6 : Nat).choose 2 : Int)) ∧
    nchoosek 6 2 = 15 :=
  ⟨(nchoosek_spec 6 2 (by decide)).1, (nchoosek_spec 6 2 (by decide)).2 (by decide), by decide⟩

/-- C3: for `k ≥ n` (also `k > n`), `nchoosek n k` is exactly `1`. -/
theorem nchoosek_of_ge (n k : Nat) (h : k ≥ n) : nchoosek n k = 1 := by
  simp [nchoosek, h]

theorem nchoosek_of_ge_witness : nchoosek 3 7 = 1 :=
  nchoosek_of_ge 3 7 (by decide)

/-- C4: for every `uint64` value `n` and every `k < n`,
`nchoosek n k = nchoosek n (n - k)`; for `k = 0` the right-hand side is the
`k ≥ n` branch. -/
theorem nchoosek_symm (n k : Nat) (hn : n < 2 ^ 64) (hk : k < n) :
    nchoosek n k = nchoosek n (n - k) := by
  rcases Nat.eq_zero_or_pos k with h0 | hpos
  · subst h0
    have hf := factorial_ne_zero n hn
    have h1 : ¬ (0 ≥ n) := by omega
    have h2 : factorial 0 = 1 := rfl
    have h3 : n - 0 ≥ n := by omega
    rw [nchoosek, if_neg h1, nchoosek, if_pos h3, h2, one_mul, Nat.sub_zero, Int.ediv_self hf]
  · have h1 : ¬ (k ≥ n) := by omega
    have h2 : ¬ (n - k ≥ n) := by omega
    have h3 : n - (n - k) = k := by omega
    simp only [nchoosek, h1, h2, h3, if_false]
    rw [mul_comm]

theorem nchoosek_symm_witness : nchoosek 6 0 = nchoosek 6 (6 - 0) :=
  nchoosek_symm 6 0 (by decide) (by decide)

/-! ## The construction loops -/

theorem wrap64_of_lt {n : Nat} (h : n < 2 ^ 64) : wrap64 n = n :=
  Nat.mod_eq_of_lt h

theorem set_eq_self_of_getElem? {α : Type} (l : List α) (r : Nat) (x : α)
    (h : l[r]? = some x) : l.set r x = l := by
  apply List.ext_getElem?
  intro m
  rw [List.getElem?_set]
  split
  · rename_i hrm
    subst hrm
    obtain ⟨hlt, -⟩ := List.getElem?_eq_some.mp h
    rw [if_pos hlt, h]
  · rfl

theorem lt_length_of_getElem? {α : Type} {l : List α} {r : Nat} {x : α}
    (h : l[r]? = some x) : r < l.length :=
  (List.getElem?_eq_some.mp h).1

/-- The entry loop, started at `j` on a row of length `i + 1`, returns with the
entries `j..i` of that row set to `nchoosek i j` and everything else untouched. -/
theorem fillRow_done (fuel r i : Nat) (hi : i + 1 < 2 ^ 64) :
    ∀ (j : Nat) (T : List (List (Option Int))) (row : List (Option Int)),
      T[r]? = some row → row.length = i + 1 → j ≤ i + 1 → i + 2 ≤ fuel + j →
      ∃ row1, fillRow fuel r i j T = .done (T.set r row1) ∧ row1.length = i + 1 ∧
        ∀ m, row1[m]? = if j ≤ m ∧ m ≤ i then some (some (nchoosek i m)) else row[m]? := by
  induction fuel with
  | zero =>
    intro j T row _ _ hj hfuel
    omega
  | succ fuel ih =>
    intro j T row hT hlen hj hfuel
    rw [fillRow]
    by_cases hji : j ≤ i
    · have hjlen : j < row.length := by omega
      have hr : r < T.length := lt_length_of_getElem? hT
      rw [if_pos hji, hT]
      simp only [setIndex, hjlen, hr, if_true, Run.andThen]
      rw [wrap64_of_lt (by omega)]
      have hT1 : (T.set r (row.set j (some (nchoosek i j))))[r]?
          = some (row.set j (some (nchoosek i j))) := List.getElem?_set_self hr
      obtain ⟨row1, hrun, hlen1, hent⟩ :=
        ih (j + 1) _ _ hT1 (by rw [List.length_set]; exact hlen) (by omega) (by omega)
      refine ⟨row1, ?_, hlen1, ?_⟩
      · rw [hrun, List.set_set]
      · intro m
        rw [hent m, List.getElem?_set]
        by_cases hm : j = m
        · subst hm
          simp [hji, hjlen]
        · have h1 : (j + 1 ≤ m ∧ m ≤ i) ↔ (j ≤ m ∧ m ≤ i) := by omega
          simp only [h1, hm, if_false]
    · rw [if_neg hji]
      refine ⟨row, ?_, hlen, ?_⟩
      · rw [set_eq_self_of_getElem? T r row hT]
      · intro m
        have h1 : ¬ (j ≤ m ∧ m ≤ i) := by omega
        rw [if_neg h1]

theorem getElem?_rowOf (i m : Nat) :
    (rowOf i)[m]? = if m ≤ i then some (some (nchoosek i m)) else none := by
  unfold rowOf
  rw [List.getElem?_map]
  by_cases h : m ≤ i
  · rw [List.getElem?_range (by omega), if_pos h]
    rfl
  · rw [List.getElem?_eq_none (by simp; omega), if_neg h]
    rfl

theorem length_rowOf (i : Nat) : (rowOf i).length = i + 1 := by
  simp [rowOf]

/-- The entry loop run from `j = 0` on a freshly made row produces `rowOf i`. -/
theorem fillRow_fresh (fuel r i : Nat) (hi : i + 1 < 2 ^ 64) (hfuel : i + 2 ≤ fuel)
    (T : List (List (Option Int))) (hT : T[r]? = some (List.replicate (i + 1) none)) :
    fillRow fuel r i 0 T = .done (T.set r (rowOf i)) := by
  obtain ⟨row1, hrun, hlen1, hent⟩ :=
    fillRow_done fuel r i hi 0 T _ hT (by simp) (by omega) (by omega)
  have : row1 = rowOf i := by
    apply List.ext_getElem?
    intro m
    rw [hent m, getElem?_rowOf]
    by_cases h : m ≤ i
    · simp [h]
    · simp [h]
      omega
  rw [hrun, this]

/-- The row loop, started at `i` on a slice of `n + 1` rows, returns with the
rows `i..n` equal to `rowOf` and the rows before `i` untouched. -/
theorem fillRows_done (fuel n : Nat) (hn : n + 1 < 2 ^ 63) :
    ∀ (i : Nat) (T : List (List (Option Int))),
      T.length = n + 1 → i ≤ n + 1 → 2 * n + 3 ≤ fuel + i →
      ∃ T1, fillRows fuel n i T = .done T1 ∧ T1.length = n + 1 ∧
        ∀ m, T1[m]? = if i ≤ m ∧ m ≤ n then some (rowOf m) else T[m]? := by
  induction fuel with
  | zero =>
    intro i T _ hi hfuel
    omega
  | succ fuel ih =>
    intro i T hlen hi hfuel
    rw [fillRows]
    by_cases hin : i ≤ n
    · have hiT : i < T.length := by omega
      have hmk : wrap64 (i + 1) < 2 ^ 63 := by
        rw [wrap64_of_lt (by omega)]; omega
      rw [if_pos hin]
      simp only [makeSlice, hmk, setIndex, hiT, if_true, Run.andThen]
      rw [wrap64_of_lt (by omega)]
      have hrow : (T.set i (List.replicate (i + 1) none))[i]?
          = some (List.replicate (i + 1) (none : Option Int)) := List.getElem?_set_self hiT
      rw [fillRow_fresh fuel i i (by omega) (by omega) _ hrow, List.set_set]
      obtain ⟨T1, hrun, hlen1, hent⟩ :=
        ih (i + 1) (T.set i (rowOf i)) (by rw [List.length_set]; exact hlen) (by omega) (by omega)
      refine ⟨T1, hrun, hlen1, ?_⟩
      intro m
      rw [hent m, List.getElem?_set]
      by_cases hm : i = m
      · subst hm
        simp [hin, hiT]
      · have h1 : (i + 1 ≤ m ∧ m ≤ n) ↔ (i ≤ m ∧ m ≤ n) := by omega
        simp only [h1, hm, if_false]
    · rw [if_neg hin]
      refine ⟨T, rfl, hlen, ?_⟩
      intro m
      have h1 : ¬ (i ≤ m ∧ m ≤ n) := by omega
      rw [if_neg h1]

theorem getElem?_rowsOf (d m : Nat) :
    (rowsOf d)[m]? = if m ≤ d then some (rowOf m) else none := by
  unfold rowsOf
  rw [List.getElem?_map]
  by_cases h : m ≤ d
  · rw [List.getElem?_range (by omega), if_pos h]
    rfl
  · rw [List.getElem?_eq_none (by simp; omega), if_neg h]
    rfl

theorem length_rowsOf (d : Nat) : (rowsOf d).length = d + 1 := by
  simp [rowsOf]

/-- Full mode: with `d + 1` representable as an `int` and enough fuel for the
`d + 1` rows, `NewPascal` returns the triangle of rows `rowOf 0 .. rowOf d`. -/
theorem NewPascal_full (fuel d : Nat) (hd : d + 1 < 2 ^ 63) (hfuel : 2 * d + 3 ≤ fuel) :
    NewPascal fuel d false = .done { Depth := d, T := rowsOf d } := by
  have hmk : wrap64 (d + 1) < 2 ^ 63 := by
    rw [wrap64_of_lt (by omega)]; omega
  obtain ⟨T1, hrun, hlen1, hent⟩ :=
    fillRows_done fuel d hd 0 (List.replicate (d + 1) []) (by simp) (by omega) (by omega)
  have hT : T1 = rowsOf d := by
    apply List.ext_getElem?
    intro m
    rw [hent m, getElem?_rowsOf]
    by_cases h : m ≤ d
    · simp [h]
    · simp [h]
      omega
  simp only [NewPascal, Bool.false_eq_true, if_false, makeSlice, hmk, if_true, Run.andThen]
  rw [wrap64_of_lt (by omega), hrun, hT]

/-- Only mode: with `d + 1` representable as an `int` and enough fuel for the
`d + 1` entries, `NewPascal` returns the single row `rowOf d`, with `Depth` 1. -/
theorem NewPascal_only (fuel d : Nat) (hd : d + 1 < 2 ^ 63) (hfuel : d + 2 ≤ fuel) :
    NewPascal fuel d true = .done { Depth := 1, T := [rowOf d] } := by
  have hmk : wrap64 (d + 1) < 2 ^ 63 := by
    rw [wrap64_of_lt (by omega)]; omega
  have h1 : (1 : Nat) < 2 ^ 63 := by decide
  simp only [NewPascal, if_true, makeSlice, hmk, h1, setIndex, Run.andThen,
    List.replicate_one, List.length_singleton, Nat.lt_one_iff]
  rw [wrap64_of_lt (by omega)]
  rw [fillRow_fresh fuel 0 d (by omega) hfuel _ (by simp)]
  simp

/-! ## Fuel: a returned result does not depend on the budget -/

theorem Run.done_andThen {α β : Type} (a : α) (k : α → Run β) :
    (Run.done a).andThen k = k a := rfl

theorem Run.andThen_eq_done {α β : Type} {x : Run α} {k : α → Run β} {b : β}
    (h : x.andThen k = .done b) : ∃ a, x = .done a ∧ k a = .done b := by
  cases x with
  | done a => exact ⟨a, rfl, h⟩
  | crash => simp [Run.andThen] at h
  | outOfFuel => simp [Run.andThen] at h

theorem fillRow_fuel_succ (fuel r i : Nat) :
    ∀ (j : Nat) (T x : List (List (Option Int))),
      fillRow fuel r i j T = .done x → fillRow (fuel + 1) r i j T = .done x := by
  induction fuel with
  | zero =>
    intro j T x h
    simp [fillRow] at h
  | succ fuel ih =>
    intro j T x h
    rw [fillRow] at h
    rw [fillRow]
    by_cases hji : j ≤ i
    · rw [if_pos hji] at h ⊢
      cases hT : T[r]? with
      | none => rw [hT] at h; simp at h
      | some row =>
        rw [hT] at h
        simp only [] at h ⊢
        obtain ⟨row1, h1, h2⟩ := Run.andThen_eq_done h
        obtain ⟨T1, h3, h4⟩ := Run.andThen_eq_done h2
        rw [h1, Run.done_andThen, h3, Run.done_andThen]
        exact ih _ _ _ h4
    · rw [if_neg hji] at h ⊢
      exact h

theorem fillRows_fuel_succ (fuel n : Nat) :
    ∀ (i : Nat) (T x : List (List (Option Int))),
      fillRows fuel n i T = .done x → fillRows (fuel + 1) n i T = .done x := by
  induction fuel with
  | zero =>
    intro i T x h
    simp [fillRows] at h
  | succ fuel ih =>
    intro i T x h
    rw [fillRows] at h
    rw [fillRows]
    by_cases hin : i ≤ n
    · rw [if_pos hin] at h ⊢
      obtain ⟨row, h1, h2⟩ := Run.andThen_eq_done h
      obtain ⟨T1, h3, h4⟩ := Run.andThen_eq_done h2
      obtain ⟨T2, h5, h6⟩ := Run.andThen_eq_done h4
      rw [h1, Run.done_andThen, h3, Run.done_andThen,
        fillRow_fuel_succ fuel i i 0 T1 T2 h5, Run.done_andThen]
      exact ih _ _ _ h6
    · rw [if_neg hin] at h ⊢
      exact h

theorem NewPascal_fuel_succ (fuel d : Nat) (only : Bool) (p : Pascal)
    (h : NewPascal fuel d only = .done p) : NewPascal (fuel + 1) d only = .done p := by
  unfold NewPascal at h ⊢
  cases only
  · simp only [Bool.false_eq_true, if_false] at h ⊢
    obtain ⟨T0, h1, h2⟩ := Run.andThen_eq_done h
    obtain ⟨T1, h3, h4⟩ := Run.andThen_eq_done h2
    rw [h1, Run.done_andThen, fillRows_fuel_succ fuel d 0 T0 T1 h3, Run.done_andThen]
    exact h4
  · simp only [if_true] at h ⊢
    obtain ⟨T0, h1, h2⟩ := Run.andThen_eq_done h
    obtain ⟨row, h3, h4⟩ := Run.andThen_eq_done h2
    obtain ⟨T1, h5, h6⟩ := Run.andThen_eq_done h4
    obtain ⟨T2, h7, h8⟩ := Run.andThen_eq_done h6
    rw [h1, Run.done_andThen, h3, Run.done_andThen, h5, Run.done_andThen,
      fillRow_fuel_succ fuel 0 d 0 T1 T2 h7, Run.done_andThen]
    exact h8

theorem NewPascal_fuel_add (fuel d : Nat) (only : Bool) (p : Pascal)
    (h : NewPascal fuel d only = .done p) (k : Nat) :
    NewPascal (fuel + k) d only = .done p := by
  induction k with
  | zero => exact h
  | succ k ih => exact NewPascal_fuel_succ (fuel + k) d only p ih

/-- The triangle the data model describes for a requested depth `d`: in full
mode the rows `0..d` with `Depth = d`, in only mode the single row `d` with the
`Depth: 1` of line 59. -/
theorem NewPascal_built_eq (fuel d : Nat) (only : Bool) (p : Pascal) (hd : d + 1 < 2 ^ 63)
    (h : NewPascal fuel d only = .done p) :
    p = if only then { Depth := 1, T := [rowOf d] } else { Depth := d, T := rowsOf d } := by
  have h1 := NewPascal_fuel_add fuel d only p h (2 * d + 3)
  cases only
  · rw [NewPascal_full _ d hd (by omega)] at h1
    simpa using (Run.done.inj h1).symm
  · rw [NewPascal_only _ d hd (by omega)] at h1
    simpa using (Run.done.inj h1).symm

theorem makeSlice_eq_done {α : Type} {len : Nat} {zero : α} {l : List α}
    (h : makeSlice len zero = .done l) : len < 2 ^ 63 ∧ l = List.replicate len zero := by
  unfold makeSlice at h
  by_cases hlen : len < 2 ^ 63
  · rw [if_pos hlen] at h
    exact ⟨hlen, (Run.done.inj h).symm⟩
  · rw [if_neg hlen] at h
    exact absurd h (by simp)

theorem setIndex_eq_done {α : Type} {s t : List α} {i : Nat} {v : α}
    (h : setIndex s i v = .done t) : i < s.length := by
  unfold setIndex at h
  by_cases hi : i < s.length
  · exact hi
  · rw [if_neg hi] at h
    exact absurd h (by simp)

/-- A construction that returns was asked for a depth whose row count `d + 1` is
a valid slice length: for the other `uint64` depths `make` or the first indexed
assignment panics. -/
theorem NewPascal_done_range (fuel d : Nat) (only : Bool) (p : Pascal) (hd : d < 2 ^ 64)
    (h : NewPascal fuel d only = .done p) : d + 1 < 2 ^ 63 := by
  by_contra hnot
  unfold NewPascal at h
  cases only
  · simp only [Bool.false_eq_true, if_false] at h
    obtain ⟨T0, h1, h2⟩ := Run.andThen_eq_done h
    obtain ⟨T1, h3, -⟩ := Run.andThen_eq_done h2
    obtain ⟨hlen, hT0⟩ := makeSlice_eq_done h1
    by_cases hmax : d + 1 = 2 ^ 64
    · have hw : wrap64 (d + 1) = 0 := by rw [hmax]; decide
      rw [hw] at hT0
      subst hT0
      cases fuel with
      | zero => simp [fillRows] at h3
      | succ f =>
        rw [fillRows, if_pos (Nat.zero_le d)] at h3
        obtain ⟨row, -, h5⟩ := Run.andThen_eq_done h3
        obtain ⟨T2, h6, -⟩ := Run.andThen_eq_done h5
        have := setIndex_eq_done h6
        simp at this
    · rw [wrap64_of_lt (by omega)] at hlen
      exact hnot hlen
  · simp only [if_true] at h
    obtain ⟨T0, h1, h2⟩ := Run.andThen_eq_done h
    obtain ⟨row, h3, h4⟩ := Run.andThen_eq_done h2
    obtain ⟨T1, h5, h6⟩ := Run.andThen_eq_done h4
    obtain ⟨T2, h7, -⟩ := Run.andThen_eq_done h6
    obtain ⟨-, hT0⟩ := makeSlice_eq_done h1
    obtain ⟨hlen, hrow⟩ := makeSlice_eq_done h3
    by_cases hmax : d + 1 = 2 ^ 64
    · have hw : wrap64 (d + 1) = 0 := by rw [hmax]; decide
      rw [hw] at hrow
      subst hrow hT0
      have hT1 : T1 = [[]] := by
        unfold setIndex at h5
        simpa using (Run.done.inj h5).symm
      subst hT1
      cases fuel with
      | zero => simp [fillRow] at h7
      | succ f =>
        rw [fillRow, if_pos (Nat.zero_le d)] at h7
        simp only [List.getElem?_cons_zero] at h7
        obtain ⟨row1, h8, -⟩ := Run.andThen_eq_done h7
        have := setIndex_eq_done h8
        simp at this
    · rw [wrap64_of_lt (by omega)] at hlen
      exact hnot hlen

/-! ## Claims C5-C8 -/

/-- C5: for every depth `d`, the full-mode triangle `NewPascal(d, false)` has
exactly `d + 1` rows, row `i` has exactly `i + 1` entries, and entry `j` of row
`i` is `nchoosek i j`.  The construction returns that triangle whenever `d + 1`
is a valid slice length and the fuel covers the `d + 1` rows, and a triangle it
returns, with any fuel, has this shape. -/
theorem NewPascal_full_spec (d : Nat) (hd : d < 2 ^ 64) :
    (d + 1 < 2 ^ 63 →
      ∃ p : Pascal, ∀ fuel, 2 * d + 3 ≤ fuel → NewPascal fuel d false = .done p) ∧
    ∀ (fuel : Nat) (p : Pascal), NewPascal fuel d false = .done p →
      p.T.length = d + 1 ∧
      ∀ i, i ≤ d → ∃ row, p.T[i]? = some row ∧ row.length = i + 1 ∧
        ∀ j, j ≤ i → row[j]? = some (some (nchoosek i j)) := by
  refine ⟨fun h => ⟨_, fun fuel hfuel => NewPascal_full fuel d h hfuel⟩, ?_⟩
  intro fuel p hp
  have hp1 := NewPascal_built_eq fuel d false p (NewPascal_done_range fuel d false p hd hp) hp
  simp only [Bool.false_eq_true, if_false] at hp1
  subst hp1
  refine ⟨length_rowsOf d, ?_⟩
  intro i hi
  refine ⟨rowOf i, ?_, length_rowOf i, ?_⟩
  · show (rowsOf d)[i]? = some (rowOf i)
    rw [getElem?_rowsOf, if_pos hi]
  · intro j hj
    rw [getElem?_rowOf, if_pos hj]

theorem NewPascal_full_spec_witness :
    (∃ p : Pascal, ∀ fuel, 2 * 4 + 3 ≤ fuel → NewPascal fuel 4 false = .done p) ∧
    ∃ p : Pascal, NewPascal 11 4 false = .done p ∧
      p.T = [[some 1], [some 1, some 1], [some 1, some 2, some 1],
        [some 1, some 3, some 3, some 1], [some 1, some 4, some 6, some 4, some 1]] ∧
      (p.T.length = 4 + 1 ∧
        ∀ i, i ≤ 4 → ∃ row, p.T[i]? = some row ∧ row.length = i + 1 ∧
          ∀ j, j ≤ i → row[j]? = some (some (nchoosek i j))) := by
  have h : NewPascal 11 4 false = .done { Depth := 4, T := [[some 1], [some 1, some 1],
      [some 1, some 2, some 1], [some 1, some 3, some 3, some 1],
      [some 1, some 4, some 6, some 4, some 1]] } := by decide
  exact ⟨(NewPascal_full_spec 4 (by decide)).1 (by decide), _, h, rfl,
    (NewPascal_full_spec 4 (by decide)).2 11 _ h⟩

/-- C6: for every depth `d`, the only-mode triangle `NewPascal(d, true)` has
exactly one row, that row has exactly `d + 1` entries, and its entry `j` is
`nchoosek d j`.  The construction returns that triangle whenever `d + 1` is a
valid slice length and the fuel covers the `d + 1` entries, and a triangle it
returns, with any fuel, has this shape. -/
theorem NewPascal_only_spec (d : Nat) (hd : d < 2 ^ 64) :
    (d + 1 < 2 ^ 63 →
      ∃ p : Pascal, ∀ fuel, d + 2 ≤ fuel → NewPascal fuel d true = .done p) ∧
    ∀ (fuel : Nat) (p : Pascal), NewPascal fuel d true = .done p →
      p.T.length = 1 ∧
      ∃ row, p.T[0]? = some row ∧ row.length = d + 1 ∧
        ∀ j, j ≤ d → row[j]? = some (some (nchoosek d j)) := by
  refine ⟨fun h => ⟨_, fun fuel hfuel => NewPascal_only fuel d h hfuel⟩, ?_⟩
  intro fuel p hp
  have hp1 := NewPascal_built_eq fuel d true p (NewPascal_done_range fuel d true p hd hp) hp
  simp only [if_true] at hp1
  subst hp1
  refine ⟨rfl, rowOf d, rfl, length_rowOf d, ?_⟩
  intro j hj
  rw [getElem?_rowOf, if_pos hj]

theorem NewPascal_only_spec_witness :
    (∃ p : Pascal, ∀ fuel, 4 + 2 ≤ fuel → NewPascal fuel 4 true = .done p) ∧
    ∃ p : Pascal, NewPascal 6 4 true = .done p ∧
      p.T = [[some 1, some 4, some 6, some 4, some 1]] ∧
      (p.T.length = 1 ∧
        ∃ row, p.T[0]? = some row ∧ row.length = 4 + 1 ∧
          ∀ j, j ≤ 4 → row[j]? = some (some (nchoosek 4 j))) := by
  have h : NewPascal 6 4 true
      = .done { Depth := 1, T := [[some 1, some 4, some 6, some 4, some 1]] } := by decide
  exact ⟨(NewPascal_only_spec 4 (by decide)).1 (by decide), _, h, rfl,
    (NewPascal_only_spec 4 (by decide)).2 6 _ h⟩

/-- Full mode: `Max` of a built triangle is `nchoosek d (d / 2)` for the
requested depth `d`. -/
theorem Max_full (fuel d : Nat) (p : Pascal) (hd : d < 2 ^ 64)
    (hp : NewPascal fuel d false = .done p) : p.Max = nchoosek d (d / 2) := by
  have hp1 := NewPascal_built_eq fuel d false p (NewPascal_done_range fuel d false p hd hp) hp
  simp only [Bool.false_eq_true, if_false] at hp1
  subst hp1
  rfl

/-- Only mode: the struct is built with `Depth: 1`, so `Max` is
`nchoosek 1 0 = 1` whatever the requested depth. -/
theorem Max_only (fuel d : Nat) (p : Pascal) (hd : d < 2 ^ 64)
    (hp : NewPascal fuel d true = .done p) : p.Depth = 1 ∧ p.Max = 1 := by
  have hp1 := NewPascal_built_eq fuel d true p (NewPascal_done_range fuel d true p hd hp) hp
  simp only [if_true] at hp1
  subst hp1
  exact ⟨rfl, show nchoosek 1 (1 / 2) = 1 by decide⟩

/-- C7 (failing input): requested depth 5 in only mode.  The construction
returns the row `1 5 10 10 5 1` with `Depth = 1`, and `Max` is `1`, whereas
`nchoosek 5 (5 / 2)` is `10`. -/
theorem Max_only_depth5 :
    ∃ p, NewPascal 7 5 true = .done p ∧
      p.T = [[some 1, some 5, some 10, some 10, some 5, some 1]] ∧
      p.Depth = 1 ∧ p.Max = 1 ∧ nchoosek 5 (5 / 2) = 10 ∧ p.Max ≠ nchoosek 5 (5 / 2) :=
  ⟨{ Depth := 1, T := [[some 1, some 5, some 10, some 10, some 5, some 1]] },
    by decide, rfl, rfl, by decide, by decide, by decide⟩

theorem choose_le_central (i j d : Nat) (hid : i ≤ d) :
    i.choose j ≤ d.choose (d / 2) :=
  calc i.choose j ≤ d.choose j := Nat.choose_le_choose j hid
    _ ≤ d.choose (d / 2) := Nat.choose_le_middle j d

/-- C8: for every depth `d`, `Max` of the full-mode triangle `NewPascal(d, false)`
is at least every entry of every row, and it occurs in row `d` (at index
`d / 2`).  This holds of every triangle the construction returns, and it
returns one whenever `d + 1` is a valid slice length. -/
theorem Max_full_is_maximum (d : Nat) (hd : d < 2 ^ 64) :
    (d + 1 < 2 ^ 63 →
      ∃ p : Pascal, ∀ fuel, 2 * d + 3 ≤ fuel → NewPascal fuel d false = .done p) ∧
    ∀ (fuel : Nat) (p : Pascal), NewPascal fuel d false = .done p →
      (∀ (i j : Nat) (row : List (Option Int)) (v : Int),
        p.T[i]? = some row → row[j]? = some (some v) → v ≤ p.Max) ∧
      (∃ row, p.T[d]? = some row ∧ row[d / 2]? = some (some p.Max)) := by
  refine ⟨fun h => ⟨_, fun fuel hfuel => NewPascal_full fuel d h hfuel⟩, ?_⟩
  intro fuel p hp
  have hrange := NewPascal_done_range fuel d false p hd hp
  have hp1 := NewPascal_built_eq fuel d false p hrange hp
  simp only [Bool.false_eq_true, if_false] at hp1
  subst hp1
  refine ⟨?_, rowOf d, ?_, ?_⟩
  · intro i j row v hrow hv
    have hrow1 : (rowsOf d)[i]? = some row := hrow
    rw [getElem?_rowsOf] at hrow1
    by_cases hi : i ≤ d
    · rw [if_pos hi] at hrow1
      have hrw : rowOf i = row := Option.some.inj hrow1
      rw [← hrw, getElem?_rowOf] at hv
      by_cases hj : j ≤ i
      · rw [if_pos hj] at hv
        have hv1 : nchoosek i j = v := Option.some.inj (Option.some.inj hv)
        show v ≤ nchoosek d (d / 2)
        rw [← hv1, nchoosek_eq_choose i j (by omega) hj,
          nchoosek_eq_choose d (d / 2) (by omega) (Nat.div_le_self d 2)]
        exact_mod_cast choose_le_central i j d hi
      · rw [if_neg hj] at hv
        exact absurd hv (by simp)
    · rw [if_neg hi] at hrow1
      exact absurd hrow1 (by simp)
  · show (rowsOf d)[d]? = some (rowOf d)
    rw [getElem?_rowsOf, if_pos (le_refl d)]
  · show (rowOf d)[d / 2]? = some (some (nchoosek d (d / 2)))
    rw [getElem?_rowOf, if_pos (Nat.div_le_self d 2)]

theorem Max_full_is_maximum_witness :
    (∃ p : Pascal, ∀ fuel, 2 * 4 + 3 ≤ fuel → NewPascal fuel 4 false = .done p) ∧
    ∃ p : Pascal, NewPascal 11 4 false = .done p ∧ p.Max = 6 ∧
      ((∀ (i j : Nat) (row : List (Option Int)) (v : Int),
        p.T[i]? = some row → row[j]? = some (some v) → v ≤ p.Max) ∧
      (∃ row, p.T[4]? = some row ∧ row[4 / 2]? = some (some p.Max))) := by
  have h : NewPascal 11 4 false = .done { Depth := 4, T := rowsOf 4 } := by decide
  exact ⟨(Max_full_is_maximum 4 (by decide)).1 (by decide), _, h, by decide,
    (Max_full_is_maximum 4 (by decide)).2 11 _ h⟩

/-! ## The renderers and the cell layout -/

theorem wrapInt_of_range {z : Int} (h1 : -(2 ^ 63) ≤ z) (h2 : z < 2 ^ 63) : wrapInt z = z := by
  unfold wrapInt
  omega

theorem Repeat_done (s : String) (n : Nat) (h : s.length * n < 2 ^ 63) :
    Repeat s (n : Int) = .done (copies s n) := by
  unfold Repeat
  rw [if_neg (by omega), Int.toNat_ofNat, if_neg (by omega)]

theorem writeCells_append (f : Cell → String) (a b : List Cell) :
    writeCells f (a ++ b) = writeCells f a ++ writeCells f b := by
  induction a with
  | nil => simp [writeCells]
  | cons c cs ih => simp [writeCells, ih, String.append_assoc]

theorem writeCells_replicate_blank (f : Cell → String) (n : Nat) :
    writeCells f (List.replicate n Cell.blank) = copies (f Cell.blank) n := by
  induction n with
  | zero => rfl
  | succ m ih => simp [List.replicate_succ, writeCells, copies, ih]

theorem textValues_eq (row : List (Option Int)) :
    textValues row = writeCells Cell.asText (valueCells row) := by
  induction row with
  | nil => rfl
  | cons v rest ih =>
    have h2 : ("\t\t" : String) = "\t" ++ "\t" := by decide
    simp only [textValues, valueCells, writeCells, Cell.asText, ih, h2, String.append_assoc]

theorem htmlValues_eq (i : Nat) (max : Int) (row : List (Option Int))
    (hrow : ∀ v ∈ row, v ≠ none) :
    htmlValues i max row = .done (writeCells (Cell.asHTML i max) (valueCells row)) := by
  induction row with
  | nil => rfl
  | cons v rest ih =>
    have ih1 := ih (fun w hw => hrow w (List.mem_cons_of_mem _ hw))
    have hv : v ≠ none := hrow v (List.mem_cons_self _ _)
    obtain ⟨z, rfl⟩ : ∃ z, v = some z := Option.ne_none_iff_exists'.mp hv
    have h2 : ("</td><td></td>" : String) = "</td>" ++ "<td></td>" := by decide
    rw [htmlValues, ih1]
    by_cases h0 : i = 0
    · simp only [htmlValue, h0, if_true, Run.andThen, valueCells, writeCells, Cell.asHTML, h2,
        String.append_assoc]
    · by_cases hz : z = max
      · simp only [htmlValue, h0, hz, if_true, if_false, Run.andThen, valueCells, writeCells,
          Cell.asHTML, h2, String.append_assoc]
      · have hz1 : ¬ (some z = some max) := fun h => hz (Option.some.inj h)
        simp only [htmlValue, h0, hz, hz1, if_false, Run.andThen, valueCells, writeCells,
          Cell.asHTML, h2, String.append_assoc]

/-- The counts handed to `strings.Repeat` for row `i` of a triangle of depth
`Depth`, when no conversion wraps. -/
theorem padding_counts (Depth i : Nat) (hi : i ≤ Depth) (hD : Depth < 2 ^ 58) :
    wrapInt (toInt64 Depth - (i : Int)) = ((Depth - i : Nat) : Int) ∧
    wrapInt (toInt64 (wrap64 (wrap64 (2 * Depth) + 1)) - wrapInt (toInt64 Depth - (i : Int)))
      = (((2 * Depth + 1) - (Depth - i) : Nat) : Int) := by
  have h1 : toInt64 Depth = (Depth : Int) := toInt64_of_lt (by omega)
  have h2 : wrap64 (2 * Depth) = 2 * Depth := wrap64_of_lt (by omega)
  have h3 : wrap64 (2 * Depth + 1) = 2 * Depth + 1 := wrap64_of_lt (by omega)
  have h4 : toInt64 (2 * Depth + 1) = ((2 * Depth + 1 : Nat) : Int) := toInt64_of_lt (by omega)
  have h5 : wrapInt ((Depth : Int) - (i : Int)) = ((Depth - i : Nat) : Int) := by
    rw [wrapInt_of_range (by omega) (by omega)]
    omega
  rw [h1, h2, h3, h4, h5]
  refine ⟨rfl, ?_⟩
  rw [wrapInt_of_range (by omega) (by omega)]
  omega

theorem textRow_cells (rowHeaders : Bool) (Depth i : Nat) (row : List (Option Int))
    (hi : i ≤ Depth) (hD : Depth < 2 ^ 58) :
    textRow rowHeaders Depth i row
      = .done (writeCells Cell.asText (rowCells rowHeaders Depth i row) ++ "\n") := by
  obtain ⟨hlead, htrail⟩ := padding_counts Depth i hi hD
  have hlen : ("\t" : String).length = 1 := by decide
  unfold textRow
  simp only []
  rw [htrail, hlead, Repeat_done _ _ (by rw [hlen]; omega), Repeat_done _ _ (by rw [hlen]; omega)]
  simp only [Run.andThen, rowCells, writeCells_append, writeCells_replicate_blank, textValues_eq,
    Cell.asText, String.append_assoc]
  cases rowHeaders <;> simp [writeCells, Cell.asText, String.append_assoc]

theorem htmlRow_cells (rowHeaders : Bool) (Depth : Nat) (max : Int) (i : Nat)
    (row : List (Option Int)) (hi : i ≤ Depth) (hD : Depth < 2 ^ 58)
    (hrow : ∀ v ∈ row, v ≠ none) :
    htmlRow rowHeaders Depth max i row
      = .done ("<tr>" ++
          (writeCells (Cell.asHTML i max) (rowCells rowHeaders Depth i row) ++ "</tr>\n")) := by
  obtain ⟨hlead, htrail⟩ := padding_counts Depth i hi hD
  have hlen : ("<td></td>" : String).length = 9 := by decide
  unfold htmlRow
  simp only []
  rw [htrail, hlead, Repeat_done _ _ (by rw [hlen]; omega), Repeat_done _ _ (by rw [hlen]; omega),
    htmlValues_eq i max row hrow]
  simp only [Run.andThen, rowCells, writeCells_append, writeCells_replicate_blank,
    Cell.asHTML, String.append_assoc]
  cases rowHeaders <;> simp [writeCells, Cell.asHTML, String.append_assoc]

theorem getElem?_valueCells (row : List (Option Int)) (j : Nat) (v : Option Int)
    (h : row[j]? = some v) : (valueCells row)[2 * j]? = some (Cell.value v) := by
  induction row generalizing j with
  | nil => simp at h
  | cons w rest ih =>
    cases j with
    | zero =>
      simp at h
      simp [valueCells, h]
    | succ k =>
      simp at h
      have := ih k h
      have h2 : 2 * (k + 1) = 2 * k + 1 + 1 := by ring
      rw [h2]
      simpa [valueCells] using this

/-- Entry `j` of a row sits `(Depth - i) + 2 * j` cells after the optional header. -/
theorem getElem?_rowCells (rowHeaders : Bool) (Depth i : Nat) (row : List (Option Int))
    (j : Nat) (v : Option Int) (h : row[j]? = some v) :
    (rowCells rowHeaders Depth i row)[(if rowHeaders then 1 else 0) + ((Depth - i) + 2 * j)]?
      = some (Cell.value v) := by
  have hv := getElem?_valueCells row j v h
  have hlt : 2 * j < (valueCells row).length := lt_length_of_getElem? hv
  unfold rowCells
  cases rowHeaders
  · simp only [Bool.false_eq_true, if_false, List.nil_append, Nat.zero_add]
    rw [List.getElem?_append_right (by simp), List.length_replicate, Nat.add_sub_cancel_left,
      List.getElem?_append_left hlt, hv]
  · simp only [if_true, List.singleton_append]
    rw [Nat.add_comm 1, List.getElem?_cons_succ,
      List.getElem?_append_right (by simp), List.length_replicate, Nat.add_sub_cancel_left,
      List.getElem?_append_left hlt, hv]

theorem rowOf_ne_none (m : Nat) : ∀ v ∈ rowOf m, v ≠ none := by
  intro v hv
  unfold rowOf at hv
  obtain ⟨j, -, rfl⟩ := List.mem_map.mp hv
  simp

theorem textRows_eq (rowHeaders : Bool) (Depth : Nat) (f : Nat → List (Option Int) → String) :
    ∀ (T : List (List (Option Int))) (i : Nat),
      (∀ k row, T[k]? = some row → textRow rowHeaders Depth (i + k) row = .done (f (i + k) row)) →
      textRows rowHeaders Depth i T = .done (writeRows f i T) := by
  intro T
  induction T with
  | nil => intro i _; rfl
  | cons row rest ih =>
    intro i h
    have h0 := h 0 row (by simp)
    have hrest := ih (i + 1) (fun k r hk => by
      have := h (k + 1) r (by simpa using hk)
      rwa [show i + (k + 1) = i + 1 + k by omega] at this)
    rw [Nat.add_zero] at h0
    simp only [textRows, h0, hrest, Run.andThen, writeRows]

theorem htmlRows_eq (rowHeaders : Bool) (Depth : Nat) (max : Int)
    (f : Nat → List (Option Int) → String) :
    ∀ (T : List (List (Option Int))) (i : Nat),
      (∀ k row, T[k]? = some row →
        htmlRow rowHeaders Depth max (i + k) row = .done (f (i + k) row)) →
      htmlRows rowHeaders Depth max i T = .done (writeRows f i T) := by
  intro T
  induction T with
  | nil => intro i _; rfl
  | cons row rest ih =>
    intro i h
    have h0 := h 0 row (by simp)
    have hrest := ih (i + 1) (fun k r hk => by
      have := h (k + 1) r (by simpa using hk)
      rwa [show i + (k + 1) = i + 1 + k by omega] at this)
    rw [Nat.add_zero] at h0
    simp only [htmlRows, h0, hrest, Run.andThen, writeRows]

/-- The renderers on a triangle whose row indices are at most `Depth` and whose
entries are not nil: both write, row by row, the cells of `rowCells`. -/
theorem render_cells (p : Pascal) (rowHeaders : Bool) (hD : p.Depth < 2 ^ 58)
    (hT : ∀ (i : Nat) (row : List (Option Int)), p.T[i]? = some row →
      i ≤ p.Depth ∧ ∀ v ∈ row, v ≠ none) :
    (∀ width : Int, 0 ≤ width → p.ToText width rowHeaders
        = .done (if width = 0 then ((bigString (some p.Max)).length : Int) + 1 else width,
            writeRows (textLine rowHeaders p.Depth) 0 p.T)) ∧
    p.ToHTML rowHeaders
      = .done (htmlHead p.Depth p.Max ++
          (writeRows (htmlLine rowHeaders p.Depth p.Max) 0 p.T ++
            "</tbody>\n</table>\n</body>\n</html>")) ∧
    ∀ (i : Nat) (row : List (Option Int)), p.T[i]? = some row →
      textRow rowHeaders p.Depth i row = .done (textLine rowHeaders p.Depth i row) ∧
      htmlRow rowHeaders p.Depth p.Max i row = .done (htmlLine rowHeaders p.Depth p.Max i row) ∧
      (∀ (j : Nat) (v : Option Int), row[j]? = some v →
        (rowCells rowHeaders p.Depth i row)[(if rowHeaders then 1 else 0) + cellPos p.Depth i j]?
          = some (Cell.value v)) ∧
      (∀ j : Nat, 1 ≤ j → j < i →
        2 * cellPos p.Depth i j
          = cellPos p.Depth (i - 1) (j - 1) + cellPos p.Depth (i - 1) j) := by
  have htext : ∀ (i : Nat) (row : List (Option Int)), p.T[i]? = some row →
      textRow rowHeaders p.Depth i row = .done (textLine rowHeaders p.Depth i row) :=
    fun i row h => textRow_cells rowHeaders p.Depth i row (hT i row h).1 hD
  have hhtml : ∀ (i : Nat) (row : List (Option Int)), p.T[i]? = some row →
      htmlRow rowHeaders p.Depth p.Max i row = .done (htmlLine rowHeaders p.Depth p.Max i row) :=
    fun i row h => htmlRow_cells rowHeaders p.Depth p.Max i row (hT i row h).1 hD (hT i row h).2
  refine ⟨?_, ?_, ?_⟩
  · intro width hwidth
    have := textRows_eq rowHeaders p.Depth (textLine rowHeaders p.Depth) p.T 0
      (fun k row hk => by rw [Nat.zero_add]; exact htext k row hk)
    have hw : ¬ ((if width = 0 then ((bigString (some p.Max)).length : Int) + 1 else width) < 0) := by
      split <;> omega
    simp only [Pascal.ToText, this, Run.andThen, hw, if_false]
  · have := htmlRows_eq rowHeaders p.Depth p.Max (htmlLine rowHeaders p.Depth p.Max) p.T 0
      (fun k row hk => by rw [Nat.zero_add]; exact hhtml k row hk)
    simp only [Pascal.ToHTML, this, Run.andThen]
  · intro i row h
    refine ⟨htext i row h, hhtml i row h, ?_, ?_⟩
    · intro j v hv
      exact getElem?_rowCells rowHeaders p.Depth i row j v hv
    · intro j hj1 hji
      have := (hT i row h).1
      unfold cellPos
      omega

/-- With a negative width `tabwriter.NewWriter` panics: `ToText` returns nothing. -/
theorem ToText_crash_of_neg (p : Pascal) (width : Int) (rowHeaders : Bool) (h : width < 0) :
    p.ToText width rowHeaders = .crash := by
  have h0 : width ≠ 0 := by omega
  simp only [Pascal.ToText, h0, h, if_true, if_false]

theorem built_full_rows (d : Nat) (i : Nat) (row : List (Option Int))
    (h : (rowsOf d)[i]? = some row) : i ≤ d ∧ ∀ v ∈ row, v ≠ none := by
  rw [getElem?_rowsOf] at h
  by_cases hi : i ≤ d
  · rw [if_pos hi] at h
    have hrw : rowOf i = row := Option.some.inj h
    exact ⟨hi, hrw ▸ rowOf_ne_none i⟩
  · rw [if_neg hi] at h
    exact absurd h (by simp)

theorem built_only_rows (d : Nat) (i : Nat) (row : List (Option Int))
    (h : [rowOf d][i]? = some row) : i ≤ 1 ∧ ∀ v ∈ row, v ≠ none := by
  cases i with
  | zero =>
    have hrw : rowOf d = row := by simpa using h
    exact ⟨by omega, hrw ▸ rowOf_ne_none d⟩
  | succ k => simp at h

/-- In a triangle `NewPascal` returns, every row index is at most `Depth` and
no entry is nil. -/
theorem NewPascal_built_rows (fuel d : Nat) (only : Bool) (p : Pascal) (hd : d < 2 ^ 64)
    (hp : NewPascal fuel d only = .done p) :
    ∀ (i : Nat) (row : List (Option Int)), p.T[i]? = some row →
      i ≤ p.Depth ∧ ∀ v ∈ row, v ≠ none := by
  have hp1 := NewPascal_built_eq fuel d only p (NewPascal_done_range fuel d only p hd hp) hp
  cases only
  · simp only [Bool.false_eq_true, if_false] at hp1
    subst hp1
    exact built_full_rows d
  · simp only [if_true] at hp1
    subst hp1
    exact built_only_rows d

/-! ## Claims C9 and C10 -/

theorem lt_pow_toDigitsCore_length (fuel : Nat) :
    ∀ n : Nat, n < fuel → n < 10 ^ (Nat.toDigitsCore 10 fuel n []).length := by
  induction fuel with
  | zero => intro n h; omega
  | succ f ih =>
    intro n hn
    rw [Nat.toDigitsCore]
    by_cases h0 : n / 10 = 0
    · simp only [h0, if_true, List.length_singleton, pow_one]
      omega
    · simp only [h0, if_false]
      rw [Nat.toDigitsCore_lens_eq, pow_succ]
      have := ih (n / 10) (by omega)
      omega

theorem lt_pow_repr_length (n : Nat) : n < 10 ^ (Nat.repr n).length := by
  have := lt_pow_toDigitsCore_length (n + 1) n (by omega)
  simpa [Nat.repr, Nat.toDigits, String.length, List.asString] using this

theorem repr_length_mono {a b : Nat} (h : a ≤ b) : (Nat.repr a).length ≤ (Nat.repr b).length := by
  have hb := lt_pow_repr_length b
  have hpos : 0 < (Nat.repr b).length := by
    rcases Nat.eq_zero_or_pos (Nat.repr b).length with h0 | h0
    · rw [h0] at hb
      have hb0 : b = 0 := by omega
      rw [hb0] at h0
      exact absurd h0 (by decide)
    · exact h0
  exact Nat.repr_length a _ hpos (by omega)

theorem bigString_natCast (n : Nat) : bigString (some (n : Int)) = Nat.repr n := rfl

/-- Full mode: the width `ToText` chooses when none is configured is larger than
the number of digits of every entry of the triangle. -/
theorem ToText_width_full (fuel d : Nat) (p : Pascal) (rowHeaders : Bool) (hd : d < 2 ^ 64)
    (hp : NewPascal fuel d false = .done p) (hD : p.Depth < 2 ^ 58) :
    ∃ (w : Int) (s : String),
      p.ToText 0 rowHeaders = .done (w, s) ∧
      w = ((bigString (some p.Max)).length : Int) + 1 ∧
      ∀ (i j : Nat) (row : List (Option Int)) (v : Option Int),
        p.T[i]? = some row → row[j]? = some v → ((bigString v).length : Int) < w := by
  obtain ⟨htext, -, -⟩ := render_cells p rowHeaders hD
    (NewPascal_built_rows fuel d false p hd hp)
  have hrange := NewPascal_done_range fuel d false p hd hp
  have hp1 := NewPascal_built_eq fuel d false p hrange hp
  simp only [Bool.false_eq_true, if_false] at hp1
  subst hp1
  refine ⟨_, _, htext 0 (le_refl 0), by simp, ?_⟩
  intro i j row v hrow hv
  have hrow1 : (rowsOf d)[i]? = some row := hrow
  rw [getElem?_rowsOf] at hrow1
  by_cases hi : i ≤ d
  · rw [if_pos hi] at hrow1
    have hrw : rowOf i = row := Option.some.inj hrow1
    rw [← hrw, getElem?_rowOf] at hv
    by_cases hj : j ≤ i
    · rw [if_pos hj] at hv
      have hv1 : some (nchoosek i j) = v := Option.some.inj hv
      have hmax : Pascal.Max { Depth := d, T := rowsOf d } = ((d.choose (d / 2) : Nat) : Int) :=
        nchoosek_eq_choose d (d / 2) (by omega) (Nat.div_le_self d 2)
      rw [← hv1, nchoosek_eq_choose i j (by omega) hj, hmax, bigString_natCast,
        bigString_natCast]
      have := repr_length_mono (choose_le_central i j d hi)
      simp only [if_true]
      omega
    · rw [if_neg hj] at hv
      exact absurd hv (by simp)
  · rw [if_neg hi] at hrow1
    exact absurd hrow1 (by simp)

/-- C9 (failing input): requested depth 5 in only mode, width not configured.
`ToText` chooses the width `len("1") + 1 = 2` because `Max` is computed from
`Depth = 1`, and the entry `10` of the row has 2 digits, so the width is not
larger than the number of digits of every entry. -/
theorem ToText_width_only_depth5 :
    ∃ (p : Pascal) (s : String),
      NewPascal 7 5 true = .done p ∧
      p.ToText 0 false = .done (2, s) ∧
      (∃ row, p.T[0]? = some row ∧ row[2]? = some (some 10)) ∧
      (bigString (some 10)).length = 2 ∧
      ¬ (((bigString (some 10)).length : Int) < 2) :=
  ⟨{ Depth := 1, T := [[some 1, some 5, some 10, some 10, some 5, some 1]] },
    "\t1\t\t5\t\t10\t\t10\t\t5\t\t1\t\t\t\t\n",
    by decide, by decide, ⟨_, rfl, rfl⟩, by decide, by decide⟩

/-- C10: for every triangle built by `NewPascal` (either mode; `Depth` below
`2 ^ 58`, so that no padding count leaves the `int` range) and every row index
`i`, `ToText` and `ToHTML` write the same cell sequence `rowCells` for row `i`:
the optional row header, `Depth - i` empty cells, each value followed by an
empty cell, `(2 * Depth + 1) - (Depth - i)` empty cells.  `ToText` ends each
cell with a tab, `ToHTML` writes each as a table cell element.  After the
optional header, entry `j` is the cell at position `(Depth - i) + 2 * j`,
midway between the positions of its parents in row `i - 1`.  The text of
`ToText` is stated for a width that is not negative, the only widths for which
`tabwriter.NewWriter` lets it write.  A triangle is built for every depth `d`
below `2 ^ 58`. -/
theorem renderers_same_cells (d : Nat) (only rowHeaders : Bool) (hd : d < 2 ^ 64) :
    (d < 2 ^ 58 →
      ∃ p : Pascal, p.Depth < 2 ^ 58 ∧
        ∀ fuel, 2 * d + 3 ≤ fuel → NewPascal fuel d only = .done p) ∧
    ∀ (fuel : Nat) (p : Pascal), NewPascal fuel d only = .done p → p.Depth < 2 ^ 58 →
      (∀ width : Int, 0 ≤ width → p.ToText width rowHeaders
        = .done (if width = 0 then ((bigString (some p.Max)).length : Int) + 1 else width,
            writeRows (textLine rowHeaders p.Depth) 0 p.T)) ∧
      p.ToHTML rowHeaders
        = .done (htmlHead p.Depth p.Max ++
            (writeRows (htmlLine rowHeaders p.Depth p.Max) 0 p.T ++
              "</tbody>\n</table>\n</body>\n</html>")) ∧
      ∀ (i : Nat) (row : List (Option Int)), p.T[i]? = some row →
        textRow rowHeaders p.Depth i row
          = .done (writeCells Cell.asText (rowCells rowHeaders p.Depth i row) ++ "\n") ∧
        htmlRow rowHeaders p.Depth p.Max i row
          = .done ("<tr>" ++ (writeCells (Cell.asHTML i p.Max)
              (rowCells rowHeaders p.Depth i row) ++ "</tr>\n")) ∧
        rowCells rowHeaders p.Depth i row
          = (if rowHeaders then [Cell.header i] else []) ++
              (List.replicate (p.Depth - i) Cell.blank ++
                (valueCells row ++
                  List.replicate ((2 * p.Depth + 1) - (p.Depth - i)) Cell.blank)) ∧
        (∀ (j : Nat) (v : Option Int), row[j]? = some v →
          (rowCells false p.Depth i row)[(p.Depth - i) + 2 * j]? = some (Cell.value v)) ∧
        (∀ j : Nat, 1 ≤ j → j < i →
          2 * ((p.Depth - i) + 2 * j)
            = ((p.Depth - (i - 1)) + 2 * (j - 1)) + ((p.Depth - (i - 1)) + 2 * j)) := by
  constructor
  · intro h58
    cases only
    · exact ⟨{ Depth := d, T := rowsOf d }, h58,
        fun fuel hfuel => NewPascal_full fuel d (by omega) hfuel⟩
    · exact ⟨{ Depth := 1, T := [rowOf d] }, show (1 : Nat) < 2 ^ 58 by decide,
        fun fuel hfuel => NewPascal_only fuel d (by omega) (by omega)⟩
  · intro fuel p hp hD
    obtain ⟨htext, hhtml, hrows⟩ :=
      render_cells p rowHeaders hD (NewPascal_built_rows fuel d only p hd hp)
    refine ⟨htext, hhtml, ?_⟩
    intro i row hrow
    obtain ⟨h1, h2, -, h4⟩ := hrows i row hrow
    refine ⟨h1, h2, rfl, ?_, h4⟩
    intro j v hv
    have := getElem?_rowCells false p.Depth i row j v hv
    simpa using this

theorem renderers_same_cells_witness :
    (∃ p : Pascal, p.Depth < 2 ^ 58 ∧
      ∀ fuel, 2 * 2 + 3 ≤ fuel → NewPascal fuel 2 false = .done p) ∧
    ∃ p : Pascal, NewPascal 7 2 false = .done p ∧
      p.T = [[some 1], [some 1, some 1], [some 1, some 2, some 1]] ∧
      ((∀ width : Int, 0 ≤ width → p.ToText width true
        = .done (if width = 0 then ((bigString (some p.Max)).length : Int) + 1 else width,
            writeRows (textLine true p.Depth) 0 p.T)) ∧
      p.ToHTML true
        = .done (htmlHead p.Depth p.Max ++
            (writeRows (htmlLine true p.Depth p.Max) 0 p.T ++
              "</tbody>\n</table>\n</body>\n</html>")) ∧
      ∀ (i : Nat) (row : List (Option Int)), p.T[i]? = some row →
        textRow true p.Depth i row
          = .done (writeCells Cell.asText (rowCells true p.Depth i row) ++ "\n") ∧
        htmlRow true p.Depth p.Max i row
          = .done ("<tr>" ++ (writeCells (Cell.asHTML i p.Max)
              (rowCells true p.Depth i row) ++ "</tr>\n")) ∧
        rowCells true p.Depth i row
          = (if true then [Cell.header i] else []) ++
              (List.replicate (p.Depth - i) Cell.blank ++
                (valueCells row ++
                  List.replicate ((2 * p.Depth + 1) - (p.Depth - i)) Cell.blank)) ∧
        (∀ (j : Nat) (v : Option Int), row[j]? = some v →
          (rowCells false p.Depth i row)[(p.Depth - i) + 2 * j]? = some (Cell.value v)) ∧
        (∀ j : Nat, 1 ≤ j → j < i →
          2 * ((p.Depth - i) + 2 * j)
            = ((p.Depth - (i - 1)) + 2 * (j - 1)) + ((p.Depth - (i - 1)) + 2 * j))) := by
  have h : NewPascal 7 2 false
      = .done { Depth := 2, T := [[some 1], [some 1, some 1], [some 1, some 2, some 1]] } := by
    decide
  exact ⟨(renderers_same_cells 2 false true (by decide)).1 (by decide), _, h, rfl,
    (renderers_same_cells 2 false true (by decide)).2 7 _ h (by decide)⟩

set_option maxRecDepth 20000 in
/-- The text and the table `ToText` and `ToHTML` write for depth 2 in full mode
with row headers. -/
theorem render_depth2 :
    (Pascal.mk 2 (rowsOf 2)).ToText 0 true
      = .done (2, "0:\t\t\t1\t\t\t\t\t\n1:\t\t1\t\t1\t\t\t\t\t\t\n2:\t1\t\t2\t\t1\t\t\t\t\t\t\t\n") ∧
    htmlRows true 2 2 0 (rowsOf 2) = .done
      ("<tr><th scope=\"row\">0</th><td></td><td></td><td id=\"central-column\">1</td><td></td><td></td><td></td><td></td></tr>\n" ++
       "<tr><th scope=\"row\">1</th><td></td><td>1</td><td></td><td>1</td><td></td><td></td><td></td><td></td><td></td></tr>\n" ++
       "<tr><th scope=\"row\">2</th><td>1</td><td></td><td id=\"biggest-number\" style=\"color: red;\">2</td><td></td><td>1</td><td></td><td></td><td></td><td></td><td></td><td></td></tr>\n") := by
  decide

/-! ## Claims C11-C14: the ids of the table cells -/

theorem isPrefixOf_append_of_length_le {p l : List Char} (r : List Char)
    (h : p.length ≤ l.length) : p.isPrefixOf (l ++ r) = p.isPrefixOf l := by
  rw [Bool.eq_iff_iff, List.isPrefixOf_iff_prefix, List.isPrefixOf_iff_prefix]
  constructor
  · intro hp
    exact List.prefix_of_prefix_length_le hp (List.prefix_append l r) h
  · intro hp
    exact hp.trans (List.prefix_append l r)

theorem isPrefixOf_append_eq_false {p l : List Char} (r : List Char)
    (h : l.length ≤ p.length) (hl : l.isPrefixOf p = false) :
    p.isPrefixOf (l ++ r) = false := by
  rw [Bool.eq_false_iff]
  intro hp
  rw [List.isPrefixOf_iff_prefix] at hp
  have := List.prefix_of_prefix_length_le (List.prefix_append l r) hp h
  rw [← List.isPrefixOf_iff_prefix, hl] at this
  exact absurd this (by simp)

theorem hasId_central_value (max : Int) (v : Option Int) :
    hasId "central-column" (Cell.asHTML 0 max (Cell.value v)) = true := by
  simp only [hasId, Cell.asHTML, if_true, String.data_append, List.append_assoc]
  rw [isPrefixOf_append_of_length_le _ (by decide)]
  decide

theorem hasId_central_iff (i : Nat) (max : Int) (c : Cell) :
    hasId "central-column" (Cell.asHTML i max c) = true ↔ i = 0 ∧ ∃ v, c = Cell.value v := by
  cases c with
  | header k =>
    have : hasId "central-column" (Cell.asHTML i max (Cell.header k)) = false := by
      simp only [hasId, Cell.asHTML, String.data_append, List.append_assoc]
      exact isPrefixOf_append_eq_false _ (by decide) (by decide)
    simp [this]
  | blank =>
    have : hasId "central-column" (Cell.asHTML i max Cell.blank) = false := by
      simp only [Cell.asHTML]
      decide
    simp [this]
  | value v =>
    by_cases h0 : i = 0
    · subst h0
      simp [hasId_central_value]
    · have : hasId "central-column" (Cell.asHTML i max (Cell.value v)) = false := by
        by_cases hv : v = some max
        · simp only [hasId, Cell.asHTML, h0, hv, if_true, if_false, String.data_append,
            List.append_assoc]
          rw [isPrefixOf_append_of_length_le _ (by decide)]
          decide
        · simp only [hasId, Cell.asHTML, h0, hv, if_false, String.data_append,
            List.append_assoc]
          exact isPrefixOf_append_eq_false _ (by decide) (by decide)
      simp [this, h0]

theorem hasId_biggest_iff (i : Nat) (max : Int) (c : Cell) :
    hasId "biggest-number" (Cell.asHTML i max c) = true ↔ i ≠ 0 ∧ c = Cell.value (some max) := by
  cases c with
  | header k =>
    have : hasId "biggest-number" (Cell.asHTML i max (Cell.header k)) = false := by
      simp only [hasId, Cell.asHTML, String.data_append, List.append_assoc]
      exact isPrefixOf_append_eq_false _ (by decide) (by decide)
    simp [this]
  | blank =>
    have : hasId "biggest-number" (Cell.asHTML i max Cell.blank) = false := by
      simp only [Cell.asHTML]
      decide
    simp [this]
  | value v =>
    by_cases h0 : i = 0
    · subst h0
      have : hasId "biggest-number" (Cell.asHTML 0 max (Cell.value v)) = false := by
        simp only [hasId, Cell.asHTML, if_true, String.data_append, List.append_assoc]
        rw [isPrefixOf_append_of_length_le _ (by decide)]
        decide
      simp [this]
    · by_cases hv : v = some max
      · subst hv
        have : hasId "biggest-number" (Cell.asHTML i max (Cell.value (some max))) = true := by
          simp only [hasId, Cell.asHTML, h0, if_true, if_false, String.data_append,
            List.append_assoc]
          rw [isPrefixOf_append_of_length_le _ (by decide)]
          decide
        simp [this, h0]
      · have : hasId "biggest-number" (Cell.asHTML i max (Cell.value v)) = false := by
          simp only [hasId, Cell.asHTML, h0, hv, if_false, String.data_append,
            List.append_assoc]
          exact isPrefixOf_append_eq_false _ (by decide) (by decide)
        simp [this, hv]

theorem mem_valueCells {c : Cell} {row : List (Option Int)} (h : c ∈ valueCells row) :
    c = Cell.blank ∨ ∃ v ∈ row, c = Cell.value v := by
  induction row with
  | nil => simp [valueCells] at h
  | cons w rest ih =>
    simp only [valueCells, List.mem_cons] at h
    rcases h with h | h | h
    · exact Or.inr ⟨w, List.mem_cons_self _ _, h⟩
    · exact Or.inl h
    · rcases ih h with h1 | ⟨v, hv, h1⟩
      · exact Or.inl h1
      · exact Or.inr ⟨v, List.mem_cons_of_mem _ hv, h1⟩

theorem value_mem_valueCells {v : Option Int} {row : List (Option Int)} (h : v ∈ row) :
    Cell.value v ∈ valueCells row := by
  induction row with
  | nil => simp at h
  | cons w rest ih =>
    simp only [valueCells, List.mem_cons]
    rcases List.mem_cons.mp h with h | h
    · exact Or.inl (by rw [h])
    · exact Or.inr (Or.inr (ih h))

theorem mem_rowCells {c : Cell} {rowHeaders : Bool} {Depth i : Nat} {row : List (Option Int)}
    (h : c ∈ rowCells rowHeaders Depth i row) :
    c = Cell.header i ∨ c = Cell.blank ∨ ∃ v ∈ row, c = Cell.value v := by
  simp only [rowCells, List.mem_append] at h
  rcases h with h | h | h | h
  · cases rowHeaders
    · simp at h
    · simp at h
      exact Or.inl h
  · exact Or.inr (Or.inl (List.eq_of_mem_replicate h))
  · exact Or.inr (mem_valueCells h)
  · exact Or.inr (Or.inl (List.eq_of_mem_replicate h))

theorem value_mem_rowCells {v : Option Int} (rowHeaders : Bool) (Depth i : Nat)
    {row : List (Option Int)} (h : v ∈ row) :
    Cell.value v ∈ rowCells rowHeaders Depth i row := by
  simp only [rowCells, List.mem_append]
  exact Or.inr (Or.inr (Or.inl (value_mem_valueCells h)))

theorem rowsOf_eq_cons (d : Nat) : ∃ rest, rowsOf d = [some 1] :: rest := by
  refine ⟨((List.range d).map Nat.succ).map rowOf, ?_⟩
  unfold rowsOf
  rw [List.range_succ_eq_map, List.map_cons]
  rfl

theorem countP_central_of_ne_zero (rowHeaders : Bool) (Depth : Nat) (max : Int) :
    ∀ (T : List (List (Option Int))) (i : Nat), i ≠ 0 →
      (htmlTable rowHeaders Depth max i T).countP (hasId "central-column") = 0 := by
  intro T
  induction T with
  | nil => intro i _; rfl
  | cons row rest ih =>
    intro i hi
    rw [htmlTable, List.countP_append, ih (i + 1) (by omega), Nat.add_zero,
      List.countP_eq_zero]
    intro e he
    obtain ⟨c, -, rfl⟩ := List.mem_map.mp he
    intro hc
    exact hi ((hasId_central_iff i max c).mp hc).1

theorem countP_central_replicate_blank (max : Int) (n : Nat) :
    ((List.replicate n Cell.blank).map (Cell.asHTML 0 max)).countP (hasId "central-column")
      = 0 := by
  rw [List.countP_eq_zero]
  intro e he
  obtain ⟨c, hc, rfl⟩ := List.mem_map.mp he
  rw [List.eq_of_mem_replicate hc]
  intro h
  obtain ⟨-, v, hv⟩ := (hasId_central_iff 0 max Cell.blank).mp h
  exact absurd hv (by simp)

/-- Row 0 with a single entry holds exactly one element with id `central-column`. -/
theorem countP_central_row_zero (rowHeaders : Bool) (Depth : Nat) (max : Int) (v : Option Int) :
    (htmlElements rowHeaders Depth max 0 [v]).countP (hasId "central-column") = 1 := by
  have hhdr : hasId "central-column" (Cell.asHTML 0 max (Cell.header 0)) = false := by
    rw [Bool.eq_false_iff]
    intro h
    obtain ⟨-, w, hw⟩ := (hasId_central_iff 0 max (Cell.header 0)).mp h
    exact absurd hw (by simp)
  have hblank : hasId "central-column" (Cell.asHTML 0 max Cell.blank) = false := by
    rw [Bool.eq_false_iff]
    intro h
    obtain ⟨-, w, hw⟩ := (hasId_central_iff 0 max Cell.blank).mp h
    exact absurd hw (by simp)
  simp only [htmlElements, rowCells, valueCells, List.map_append, List.countP_append,
    countP_central_replicate_blank, List.map_cons, List.map_nil, List.countP_cons,
    List.countP_nil, hasId_central_value, hblank]
  cases rowHeaders <;> simp [hhdr]

/-- C11: for every depth `d`, the table `ToHTML` writes for the full-mode triangle
`NewPascal(d, false)` holds exactly one element with id `central-column`, and
it is the single cell of row 0, holding the value `1`.  This is stated of every
triangle the construction returns (with `Depth` below `2 ^ 58`, where `ToHTML`
returns the document made of these rows); one is returned for `d < 2 ^ 58`. -/
theorem central_column_once (d : Nat) (rowHeaders : Bool) (hd : d < 2 ^ 64) :
    (d < 2 ^ 58 →
      ∃ p : Pascal, ∀ fuel, 2 * d + 3 ≤ fuel → NewPascal fuel d false = .done p) ∧
    ∀ (fuel : Nat) (p : Pascal), NewPascal fuel d false = .done p → p.Depth < 2 ^ 58 →
      p.ToHTML rowHeaders
        = .done (htmlHead p.Depth p.Max ++
            (writeRows (htmlLine rowHeaders p.Depth p.Max) 0 p.T ++
              "</tbody>\n</table>\n</body>\n</html>")) ∧
      (htmlTable rowHeaders p.Depth p.Max 0 p.T).countP (hasId "central-column") = 1 ∧
      p.T[0]? = some [some 1] ∧
      "<td id=\"central-column\">1</td>" ∈ htmlElements rowHeaders p.Depth p.Max 0 [some 1] ∧
      ∀ (i : Nat) (row : List (Option Int)) (e : String),
        p.T[i]? = some row → e ∈ htmlElements rowHeaders p.Depth p.Max i row →
        hasId "central-column" e = true →
        i = 0 ∧ e = "<td id=\"central-column\">1</td>" := by
  refine ⟨fun h => ⟨_, fun fuel hfuel => NewPascal_full fuel d (by omega) hfuel⟩, ?_⟩
  intro fuel p hp hD
  obtain ⟨-, hhtml, -⟩ :=
    render_cells p rowHeaders hD (NewPascal_built_rows fuel d false p hd hp)
  have hp1 := NewPascal_built_eq fuel d false p (NewPascal_done_range fuel d false p hd hp) hp
  simp only [Bool.false_eq_true, if_false] at hp1
  obtain ⟨rest, hrest⟩ := rowsOf_eq_cons d
  have hT : p.T = [some 1] :: rest := by rw [hp1]; exact hrest
  have hval : Cell.asHTML 0 p.Max (Cell.value (some 1)) = "<td id=\"central-column\">1</td>" := by
    simp only [Cell.asHTML, if_true]
    decide
  refine ⟨hhtml, ?_, ?_, ?_, ?_⟩
  · rw [hT, htmlTable, List.countP_append, countP_central_row_zero,
      countP_central_of_ne_zero _ _ _ rest 1 (by omega)]
  · rw [hT]
    simp
  · rw [← hval]
    exact List.mem_map.mpr ⟨_, value_mem_rowCells rowHeaders p.Depth 0 (List.mem_singleton_self _),
      rfl⟩
  · intro i row e hrow he hid
    obtain ⟨c, hc, rfl⟩ := List.mem_map.mp he
    obtain ⟨hi, v, rfl⟩ := (hasId_central_iff i p.Max c).mp hid
    subst hi
    refine ⟨rfl, ?_⟩
    rw [hT] at hrow
    have hrow0 : row = [some 1] := by simpa using hrow.symm
    subst hrow0
    rcases mem_rowCells hc with h | h | ⟨w, hw, h⟩
    · exact absurd h (by simp)
    · exact absurd h (by simp)
    · rw [List.mem_singleton] at hw
      rw [Cell.value.inj h, hw]
      exact hval

theorem central_column_once_witness :
    (∃ p : Pascal, ∀ fuel, 2 * 2 + 3 ≤ fuel → NewPascal fuel 2 false = .done p) ∧
    ∃ p : Pascal, NewPascal 7 2 false = .done p ∧
      p.ToHTML false
        = .done (htmlHead p.Depth p.Max ++
            (writeRows (htmlLine false p.Depth p.Max) 0 p.T ++
              "</tbody>\n</table>\n</body>\n</html>")) ∧
      (htmlTable false p.Depth p.Max 0 p.T).countP (hasId "central-column") = 1 ∧
      p.T[0]? = some [some 1] ∧
      "<td id=\"central-column\">1</td>" ∈ htmlElements false p.Depth p.Max 0 [some 1] ∧
      ∀ (i : Nat) (row : List (Option Int)) (e : String),
        p.T[i]? = some row → e ∈ htmlElements false p.Depth p.Max i row →
        hasId "central-column" e = true →
        i = 0 ∧ e = "<td id=\"central-column\">1</td>" := by
  have h : NewPascal 7 2 false
      = .done { Depth := 2, T := [[some 1], [some 1, some 1], [some 1, some 2, some 1]] } := by
    decide
  exact ⟨(central_column_once 2 false (by decide)).1 (by decide), _, h,
    (central_column_once 2 false (by decide)).2 7 _ h (by decide)⟩

/-- What the value loop of `ToHTML` writes for an entry is the element of its
cell followed by an empty cell. -/
theorem htmlValue_eq (i : Nat) (max : Int) (v : Option Int) (h : i = 0 ∨ v ≠ none) :
    htmlValue i max v = .done (Cell.asHTML i max (Cell.value v) ++ "<td></td>") := by
  have h2 : ("</td><td></td>" : String) = "</td>" ++ "<td></td>" := by decide
  by_cases h0 : i = 0
  · simp only [htmlValue, h0, if_true, Cell.asHTML, h2, String.append_assoc]
  · have hv : v ≠ none := h.resolve_left h0
    obtain ⟨z, rfl⟩ : ∃ z, v = some z := Option.ne_none_iff_exists'.mp hv
    by_cases hz : z = max
    · simp only [htmlValue, h0, hz, if_true, if_false, Cell.asHTML, h2, String.append_assoc]
    · have hz1 : ¬ (some z = some max) := fun h => hz (Option.some.inj h)
      simp only [htmlValue, h0, hz, hz1, if_false, Cell.asHTML, h2, String.append_assoc]

theorem mem_of_getElem? {α : Type} {l : List α} {j : Nat} {v : α} (h : l[j]? = some v) :
    v ∈ l := by
  obtain ⟨hlt, rfl⟩ := List.getElem?_eq_some.mp h
  exact List.getElem_mem hlt

theorem mem_htmlTable (rowHeaders : Bool) (Depth : Nat) (max : Int) (e : String) :
    ∀ (T : List (List (Option Int))) (i k : Nat) (row : List (Option Int)),
      T[k]? = some row → e ∈ htmlElements rowHeaders Depth max (i + k) row →
      e ∈ htmlTable rowHeaders Depth max i T := by
  intro T
  induction T with
  | nil => intro i k row h; simp at h
  | cons r rest ih =>
    intro i k row h he
    rw [htmlTable, List.mem_append]
    cases k with
    | zero =>
      have : r = row := by simpa using h
      subst this
      exact Or.inl he
    | succ k =>
      have h1 : rest[k]? = some row := by simpa using h
      exact Or.inr (ih (i + 1) k row h1 (by rwa [show i + 1 + k = i + (k + 1) by omega]))

/-- C12 (counterexample): requested depth 1 in only mode.  The single row is
`1 1`, it is row 0, and `ToHTML` writes both entries, also the one at index 1,
with id `central-column`. -/
theorem central_column_only_depth1 :
    ∃ p : Pascal, NewPascal 3 1 true = .done p ∧
      p.T = [[some 1, some 1]] ∧
      htmlRow false p.Depth p.Max 0 [some 1, some 1] = .done
        ("<tr><td></td><td id=\"central-column\">1</td><td></td>" ++
          "<td id=\"central-column\">1</td><td></td><td></td><td></td></tr>\n") ∧
      ∃ (row : List (Option Int)) (v : Option Int),
        p.T[0]? = some row ∧ row[1]? = some v ∧
        htmlValue 0 p.Max v = .done (Cell.asHTML 0 p.Max (Cell.value v) ++ "<td></td>") ∧
        hasId "central-column" (Cell.asHTML 0 p.Max (Cell.value v)) = true :=
  ⟨{ Depth := 1, T := [[some 1, some 1]] }, by decide, rfl, by decide,
    [some 1, some 1], some 1, rfl, rfl, by decide, by decide⟩

/-- C12 (amended): for every depth `d` and both modes, every element with id
`central-column` in the table `ToHTML` writes is the cell of an entry of row 0:
no entry of a row `i ≥ 1` is tagged.  In full mode row 0 has a single entry, so
the tagged entry is the one at index 0 of its row.  This is stated of every
triangle the construction returns (with `Depth` below `2 ^ 58`, where `ToHTML`
returns the document made of these rows); one is returned for `d < 2 ^ 58`. -/
theorem central_column_row_zero (d : Nat) (only rowHeaders : Bool) (hd : d < 2 ^ 64) :
    (d < 2 ^ 58 →
      ∃ p : Pascal, p.Depth < 2 ^ 58 ∧
        ∀ fuel, 2 * d + 3 ≤ fuel → NewPascal fuel d only = .done p) ∧
    ∀ (fuel : Nat) (p : Pascal), NewPascal fuel d only = .done p → p.Depth < 2 ^ 58 →
      p.ToHTML rowHeaders
        = .done (htmlHead p.Depth p.Max ++
            (writeRows (htmlLine rowHeaders p.Depth p.Max) 0 p.T ++
              "</tbody>\n</table>\n</body>\n</html>")) ∧
      (∀ (i : Nat) (row : List (Option Int)) (e : String),
        p.T[i]? = some row → e ∈ htmlElements rowHeaders p.Depth p.Max i row →
        hasId "central-column" e = true →
        i = 0 ∧ ∃ v, v ∈ row ∧ e = Cell.asHTML 0 p.Max (Cell.value v)) ∧
      ∀ (i j : Nat) (row : List (Option Int)) (v : Option Int),
        p.T[i]? = some row → row[j]? = some v →
        Cell.asHTML i p.Max (Cell.value v) ∈ htmlElements rowHeaders p.Depth p.Max i row ∧
        htmlValue i p.Max v = .done (Cell.asHTML i p.Max (Cell.value v) ++ "<td></td>") ∧
        (hasId "central-column" (Cell.asHTML i p.Max (Cell.value v)) = true →
          i = 0 ∧ (only = false → j = 0)) := by
  constructor
  · intro h58
    cases only
    · exact ⟨{ Depth := d, T := rowsOf d }, h58,
        fun fuel hfuel => NewPascal_full fuel d (by omega) hfuel⟩
    · exact ⟨{ Depth := 1, T := [rowOf d] }, show (1 : Nat) < 2 ^ 58 by decide,
        fun fuel hfuel => NewPascal_only fuel d (by omega) (by omega)⟩
  · intro fuel p hp hD
    have hrows := NewPascal_built_rows fuel d only p hd hp
    obtain ⟨-, hhtml, -⟩ := render_cells p rowHeaders hD hrows
    refine ⟨hhtml, ?_, ?_⟩
    · intro i row e hrow he hid
      obtain ⟨c, hc, rfl⟩ := List.mem_map.mp he
      obtain ⟨hi, v, rfl⟩ := (hasId_central_iff i p.Max c).mp hid
      subst hi
      refine ⟨rfl, v, ?_, rfl⟩
      rcases mem_rowCells hc with h | h | ⟨w, hw, h⟩
      · exact absurd h (by simp)
      · exact absurd h (by simp)
      · rw [Cell.value.inj h]
        exact hw
    · intro i j row v hrow hv
      have hne : v ≠ none := (hrows i row hrow).2 v (mem_of_getElem? hv)
      refine ⟨List.mem_map.mpr
          ⟨_, value_mem_rowCells rowHeaders p.Depth i (mem_of_getElem? hv), rfl⟩,
        htmlValue_eq i p.Max v (Or.inr hne), ?_⟩
      intro hid
      have hi : i = 0 := ((hasId_central_iff i p.Max _).mp hid).1
      refine ⟨hi, ?_⟩
      intro hfull
      subst hfull hi
      have hp1 := NewPascal_built_eq fuel d false p (NewPascal_done_range fuel d false p hd hp) hp
      simp only [Bool.false_eq_true, if_false] at hp1
      obtain ⟨rest, hrest⟩ := rowsOf_eq_cons d
      rw [hp1] at hrow
      simp only [hrest, List.getElem?_cons_zero, Option.some.injEq] at hrow
      subst hrow
      have := lt_length_of_getElem? hv
      simp at this
      exact this

set_option maxRecDepth 100000 in
theorem central_column_row_zero_witness :
    (∃ p : Pascal, p.Depth < 2 ^ 58 ∧
      ∀ fuel, 2 * 2 + 3 ≤ fuel → NewPascal fuel 2 false = .done p) ∧
    ∃ p : Pascal, NewPascal 7 2 false = .done p ∧
      hasId "central-column" (Cell.asHTML 0 p.Max (Cell.value (some 1))) = true ∧
      htmlRows false p.Depth p.Max 0 p.T = .done
        ("<tr><td></td><td></td><td id=\"central-column\">1</td><td></td><td></td><td></td><td></td></tr>\n" ++
         "<tr><td></td><td>1</td><td></td><td>1</td><td></td><td></td><td></td><td></td><td></td></tr>\n" ++
         "<tr><td>1</td><td></td><td id=\"biggest-number\" style=\"color: red;\">2</td><td></td><td>1</td><td></td><td></td><td></td><td></td><td></td><td></td></tr>\n") ∧
      p.ToHTML false = .done
        ("\n<!DOCTYPE html>\n<html>\n<body>\n<h1>Pascal triangle of depth 2</h1>\n<nav>\n\t<ul>\n" ++
         "\t\t<li><a href=\"#central-column\">Central column</a></li>\n" ++
         "\t\t<li><a href=\"#biggest-number\">Biggest number</a></li>\n\t</ul>\n</nav>\n" ++
         "<p>Biggest number is 2.</p>\n<p>It has 1 digits.</p>\n" ++
         "<style>\n\ttable \x7b\n\t\tempty-cells: show;\n\t\x7d\n\ttable, td, th \x7b\n" ++
         "\t\ttext-align: right;\n\t\tfont-size: 9px;\n\t\x7d\n</style>\n<table><tbody>\n" ++
         "<tr><td></td><td></td><td id=\"central-column\">1</td><td></td><td></td><td></td><td></td></tr>\n" ++
         "<tr><td></td><td>1</td><td></td><td>1</td><td></td><td></td><td></td><td></td><td></td></tr>\n" ++
         "<tr><td>1</td><td></td><td id=\"biggest-number\" style=\"color: red;\">2</td><td></td><td>1</td><td></td><td></td><td></td><td></td><td></td><td></td></tr>\n" ++
         "</tbody>\n</table>\n</body>\n</html>") ∧
      (p.ToHTML false
        = .done (htmlHead p.Depth p.Max ++
            (writeRows (htmlLine false p.Depth p.Max) 0 p.T ++
              "</tbody>\n</table>\n</body>\n</html>")) ∧
      (∀ (i : Nat) (row : List (Option Int)) (e : String),
        p.T[i]? = some row → e ∈ htmlElements false p.Depth p.Max i row →
        hasId "central-column" e = true →
        i = 0 ∧ ∃ v, v ∈ row ∧ e = Cell.asHTML 0 p.Max (Cell.value v)) ∧
      ∀ (i j : Nat) (row : List (Option Int)) (v : Option Int),
        p.T[i]? = some row → row[j]? = some v →
        Cell.asHTML i p.Max (Cell.value v) ∈ htmlElements false p.Depth p.Max i row ∧
        htmlValue i p.Max v = .done (Cell.asHTML i p.Max (Cell.value v) ++ "<td></td>") ∧
        (hasId "central-column" (Cell.asHTML i p.Max (Cell.value v)) = true →
          i = 0 ∧ (false = false → j = 0))) := by
  have h : NewPascal 7 2 false
      = .done { Depth := 2, T := [[some 1], [some 1, some 1], [some 1, some 2, some 1]] } := by
    decide
  exact ⟨(central_column_row_zero 2 false false (by decide)).1 (by decide), _, h, by decide,
    by decide, by decide,
    (central_column_row_zero 2 false false (by decide)).2 7 _ h (by decide)⟩

/-- C13 (counterexample): depth 0 in full mode.  The triangle is the single
entry `1`, `Max` is `1`, and `ToHTML` writes that cell, whose value equals
`Max`, with id `central-column` and neither the id `biggest-number` nor the red
style. -/
theorem biggest_number_missing_depth0 :
    ∃ p : Pascal, NewPascal 3 0 false = .done p ∧
      p.T = [[some 1]] ∧ p.Max = 1 ∧
      htmlValue 0 p.Max (some 1) = .done "<td id=\"central-column\">1</td><td></td>" ∧
      htmlRow false p.Depth p.Max 0 [some 1]
        = .done "<tr><td id=\"central-column\">1</td><td></td><td></td></tr>\n" ∧
      hasId "biggest-number" (Cell.asHTML 0 p.Max (Cell.value (some 1))) = false ∧
      (htmlTable false p.Depth p.Max 0 p.T).countP (hasId "biggest-number") = 0 :=
  ⟨{ Depth := 0, T := [[some 1]] }, by decide, rfl, by decide, by decide, by decide, by decide,
    by decide⟩

/-- C13 (amended): for every triangle built by `NewPascal` (any depth, both
modes), in the table `ToHTML` writes every entry of a row of index `i ≥ 1`
whose value equals `Max` is the element with id `biggest-number` and the red
style; an entry of row 0 is written with id `central-column`, also when its
value equals `Max`.  This is stated of every triangle the construction returns
(with `Depth` below `2 ^ 58`, where `ToHTML` returns the document made of these
rows, with `Max` as the number compared); one is returned for `d < 2 ^ 58`. -/
theorem biggest_number_tagged (d : Nat) (only rowHeaders : Bool) (hd : d < 2 ^ 64) :
    (d < 2 ^ 58 →
      ∃ p : Pascal, p.Depth < 2 ^ 58 ∧
        ∀ fuel, 2 * d + 3 ≤ fuel → NewPascal fuel d only = .done p) ∧
    ∀ (fuel : Nat) (p : Pascal), NewPascal fuel d only = .done p → p.Depth < 2 ^ 58 →
      p.ToHTML rowHeaders
        = .done (htmlHead p.Depth p.Max ++
            (writeRows (htmlLine rowHeaders p.Depth p.Max) 0 p.T ++
              "</tbody>\n</table>\n</body>\n</html>")) ∧
      ∀ (i j : Nat) (row : List (Option Int)) (v : Option Int),
        p.T[i]? = some row → row[j]? = some v → v = some p.Max →
        Cell.asHTML i p.Max (Cell.value v) ∈ htmlElements rowHeaders p.Depth p.Max i row ∧
        (i ≠ 0 →
          Cell.asHTML i p.Max (Cell.value v)
            = "<td id=\"biggest-number\" style=\"color: red;\">" ++ bigString v ++ "</td>" ∧
          htmlValue i p.Max v = .done
            ("<td id=\"biggest-number\" style=\"color: red;\">" ++ bigString v ++
              "</td><td></td>") ∧
          hasId "biggest-number" (Cell.asHTML i p.Max (Cell.value v)) = true) ∧
        (i = 0 →
          Cell.asHTML i p.Max (Cell.value v)
            = "<td id=\"central-column\">" ++ bigString v ++ "</td>" ∧
          htmlValue i p.Max v = .done
            ("<td id=\"central-column\">" ++ bigString v ++ "</td><td></td>") ∧
          hasId "biggest-number" (Cell.asHTML i p.Max (Cell.value v)) = false) := by
  constructor
  · intro h58
    cases only
    · exact ⟨{ Depth := d, T := rowsOf d }, h58,
        fun fuel hfuel => NewPascal_full fuel d (by omega) hfuel⟩
    · exact ⟨{ Depth := 1, T := [rowOf d] }, show (1 : Nat) < 2 ^ 58 by decide,
        fun fuel hfuel => NewPascal_only fuel d (by omega) (by omega)⟩
  · intro fuel p hp hD
    have hrows := NewPascal_built_rows fuel d only p hd hp
    obtain ⟨-, hhtml, -⟩ := render_cells p rowHeaders hD hrows
    refine ⟨hhtml, ?_⟩
    intro i j row v hrow hv hmax
    refine ⟨List.mem_map.mpr
        ⟨_, value_mem_rowCells rowHeaders p.Depth i (mem_of_getElem? hv), rfl⟩, ?_, ?_⟩
    · intro hi
      subst hmax
      refine ⟨by simp [Cell.asHTML, hi], by simp [htmlValue, hi], ?_⟩
      exact (hasId_biggest_iff i p.Max _).mpr ⟨hi, rfl⟩
    · intro hi
      subst hmax
      refine ⟨by simp [Cell.asHTML, hi], by simp [htmlValue, hi], ?_⟩
      rw [Bool.eq_false_iff]
      intro h
      exact ((hasId_biggest_iff i p.Max _).mp h).1 hi

set_option maxRecDepth 100000 in
theorem biggest_number_tagged_witness :
    (∃ p : Pascal, p.Depth < 2 ^ 58 ∧
      ∀ fuel, 2 * 2 + 3 ≤ fuel → NewPascal fuel 2 false = .done p) ∧
    ∃ p : Pascal, NewPascal 7 2 false = .done p ∧ p.Max = 2 ∧
      (∃ row, p.T[2]? = some row ∧ row[1]? = some (some 2)) ∧
      htmlRows false p.Depth p.Max 0 p.T = .done
        ("<tr><td></td><td></td><td id=\"central-column\">1</td><td></td><td></td><td></td><td></td></tr>\n" ++
         "<tr><td></td><td>1</td><td></td><td>1</td><td></td><td></td><td></td><td></td><td></td></tr>\n" ++
         "<tr><td>1</td><td></td><td id=\"biggest-number\" style=\"color: red;\">2</td><td></td><td>1</td><td></td><td></td><td></td><td></td><td></td><td></td></tr>\n") ∧
      p.ToHTML false = .done
        ("\n<!DOCTYPE html>\n<html>\n<body>\n<h1>Pascal triangle of depth 2</h1>\n<nav>\n\t<ul>\n" ++
         "\t\t<li><a href=\"#central-column\">Central column</a></li>\n" ++
         "\t\t<li><a href=\"#biggest-number\">Biggest number</a></li>\n\t</ul>\n</nav>\n" ++
         "<p>Biggest number is 2.</p>\n<p>It has 1 digits.</p>\n" ++
         "<style>\n\ttable \x7b\n\t\tempty-cells: show;\n\t\x7d\n\ttable, td, th \x7b\n" ++
         "\t\ttext-align: right;\n\t\tfont-size: 9px;\n\t\x7d\n</style>\n<table><tbody>\n" ++
         "<tr><td></td><td></td><td id=\"central-column\">1</td><td></td><td></td><td></td><td></td></tr>\n" ++
         "<tr><td></td><td>1</td><td></td><td>1</td><td></td><td></td><td></td><td></td><td></td></tr>\n" ++
         "<tr><td>1</td><td></td><td id=\"biggest-number\" style=\"color: red;\">2</td><td></td><td>1</td><td></td><td></td><td></td><td></td><td></td><td></td></tr>\n" ++
         "</tbody>\n</table>\n</body>\n</html>") ∧
      (p.ToHTML false
        = .done (htmlHead p.Depth p.Max ++
            (writeRows (htmlLine false p.Depth p.Max) 0 p.T ++
              "</tbody>\n</table>\n</body>\n</html>")) ∧
      ∀ (i j : Nat) (row : List (Option Int)) (v : Option Int),
        p.T[i]? = some row → row[j]? = some v → v = some p.Max →
        Cell.asHTML i p.Max (Cell.value v) ∈ htmlElements false p.Depth p.Max i row ∧
        (i ≠ 0 →
          Cell.asHTML i p.Max (Cell.value v)
            = "<td id=\"biggest-number\" style=\"color: red;\">" ++ bigString v ++ "</td>" ∧
          htmlValue i p.Max v = .done
            ("<td id=\"biggest-number\" style=\"color: red;\">" ++ bigString v ++
              "</td><td></td>") ∧
          hasId "biggest-number" (Cell.asHTML i p.Max (Cell.value v)) = true) ∧
        (i = 0 →
          Cell.asHTML i p.Max (Cell.value v)
            = "<td id=\"central-column\">" ++ bigString v ++ "</td>" ∧
          htmlValue i p.Max v = .done
            ("<td id=\"central-column\">" ++ bigString v ++ "</td><td></td>") ∧
          hasId "biggest-number" (Cell.asHTML i p.Max (Cell.value v)) = false)) := by
  have h : NewPascal 7 2 false
      = .done { Depth := 2, T := [[some 1], [some 1, some 1], [some 1, some 2, some 1]] } := by
    decide
  exact ⟨(biggest_number_tagged 2 false false (by decide)).1 (by decide), _, h, by decide,
    ⟨_, rfl, rfl⟩, by decide, by decide,
    (biggest_number_tagged 2 false false (by decide)).2 7 _ h (by decide)⟩

/-- C14: for every depth `d ≥ 1`, the table `ToHTML` writes for the full-mode
triangle `NewPascal(d, false)` holds at least one element with id
`biggest-number` (the entry at index `d / 2` of row `d`), and every element
with that id is the cell of a value equal to `Max`.  This is stated of every
triangle the construction returns (with `Depth` below `2 ^ 58`, where `ToHTML`
returns the document made of these rows); one is returned for `d < 2 ^ 58`. -/
theorem biggest_number_present (d : Nat) (rowHeaders : Bool) (hd : d < 2 ^ 64) (h1 : 1 ≤ d) :
    (d < 2 ^ 58 →
      ∃ p : Pascal, ∀ fuel, 2 * d + 3 ≤ fuel → NewPascal fuel d false = .done p) ∧
    ∀ (fuel : Nat) (p : Pascal), NewPascal fuel d false = .done p → p.Depth < 2 ^ 58 →
      p.ToHTML rowHeaders
        = .done (htmlHead p.Depth p.Max ++
            (writeRows (htmlLine rowHeaders p.Depth p.Max) 0 p.T ++
              "</tbody>\n</table>\n</body>\n</html>")) ∧
      (∃ e, e ∈ htmlTable rowHeaders p.Depth p.Max 0 p.T ∧ hasId "biggest-number" e = true) ∧
      (∃ row, p.T[d]? = some row ∧ row[d / 2]? = some (some p.Max) ∧
        htmlValue d p.Max (some p.Max) = .done
          ("<td id=\"biggest-number\" style=\"color: red;\">" ++ bigString (some p.Max) ++
            "</td><td></td>")) ∧
      ∀ (i : Nat) (row : List (Option Int)) (e : String),
        p.T[i]? = some row → e ∈ htmlElements rowHeaders p.Depth p.Max i row →
        hasId "biggest-number" e = true →
        some p.Max ∈ row ∧
        e = "<td id=\"biggest-number\" style=\"color: red;\">" ++ bigString (some p.Max) ++
          "</td>" := by
  refine ⟨fun h => ⟨_, fun fuel hfuel => NewPascal_full fuel d (by omega) hfuel⟩, ?_⟩
  intro fuel p hp hD
  obtain ⟨-, hhtml, -⟩ :=
    render_cells p rowHeaders hD (NewPascal_built_rows fuel d false p hd hp)
  have hp1 := NewPascal_built_eq fuel d false p (NewPascal_done_range fuel d false p hd hp) hp
  simp only [Bool.false_eq_true, if_false] at hp1
  have hd0 : d ≠ 0 := by omega
  have hrowd : p.T[d]? = some (rowOf d) := by
    rw [hp1]
    show (rowsOf d)[d]? = some (rowOf d)
    rw [getElem?_rowsOf, if_pos (le_refl d)]
  have hmid : (rowOf d)[d / 2]? = some (some p.Max) := by
    rw [hp1]
    show (rowOf d)[d / 2]? = some (some (nchoosek d (d / 2)))
    rw [getElem?_rowOf, if_pos (Nat.div_le_self d 2)]
  have hcell : hasId "biggest-number" (Cell.asHTML d p.Max (Cell.value (some p.Max))) = true :=
    (hasId_biggest_iff d p.Max _).mpr ⟨hd0, rfl⟩
  refine ⟨hhtml, ?_, ⟨rowOf d, hrowd, hmid, by simp [htmlValue, hd0]⟩, ?_⟩
  · refine ⟨_, mem_htmlTable rowHeaders p.Depth p.Max _ p.T 0 d (rowOf d) hrowd ?_, hcell⟩
    rw [Nat.zero_add]
    exact List.mem_map.mpr
      ⟨_, value_mem_rowCells rowHeaders p.Depth d (mem_of_getElem? hmid), rfl⟩
  · intro i row e hrow he hid
    obtain ⟨c, hc, rfl⟩ := List.mem_map.mp he
    obtain ⟨hi, rfl⟩ := (hasId_biggest_iff i p.Max c).mp hid
    rcases mem_rowCells hc with h | h | ⟨w, hw, h⟩
    · exact absurd h (by simp)
    · exact absurd h (by simp)
    · rw [← Cell.value.inj h] at hw
      exact ⟨hw, by simp [Cell.asHTML, hi]⟩

theorem biggest_number_present_witness :
    (∃ p : Pascal, ∀ fuel, 2 * 2 + 3 ≤ fuel → NewPascal fuel 2 false = .done p) ∧
    ∃ p : Pascal, NewPascal 7 2 false = .done p ∧ p.Max = 2 ∧
      htmlRow false p.Depth p.Max 2 [some 1, some 2, some 1] = .done
        ("<tr><td>1</td><td></td><td id=\"biggest-number\" style=\"color: red;\">2</td>" ++
          "<td></td><td>1</td><td></td><td></td><td></td><td></td><td></td><td></td></tr>\n") ∧
      (p.ToHTML false
        = .done (htmlHead p.Depth p.Max ++
            (writeRows (htmlLine false p.Depth p.Max) 0 p.T ++
              "</tbody>\n</table>\n</body>\n</html>")) ∧
      (∃ e, e ∈ htmlTable false p.Depth p.Max 0 p.T ∧ hasId "biggest-number" e = true) ∧
      (∃ row, p.T[2]? = some row ∧ row[2 / 2]? = some (some p.Max) ∧
        htmlValue 2 p.Max (some p.Max) = .done
          ("<td id=\"biggest-number\" style=\"color: red;\">" ++ bigString (some p.Max) ++
            "</td><td></td>")) ∧
      ∀ (i : Nat) (row : List (Option Int)) (e : String),
        p.T[i]? = some row → e ∈ htmlElements false p.Depth p.Max i row →
        hasId "biggest-number" e = true →
        some p.Max ∈ row ∧
        e = "<td id=\"biggest-number\" style=\"color: red;\">" ++ bigString (some p.Max) ++
          "</td>") := by
  have h : NewPascal 7 2 false
      = .done { Depth := 2, T := [[some 1], [some 1, some 1], [some 1, some 2, some 1]] } := by
    decide
  exact ⟨(biggest_number_present 2 false (by decide) (by decide)).1 (by decide), _, h,
    by decide, by decide,
    (biggest_number_present 2 false (by decide) (by decide)).2 7 _ h (by decide)⟩

/-! ## Claim C15: the modes of the command -/

/-- C15: for every combination of the flags and every parsed depth `v` (and
`k`), `main` decides its output in this order: with `factorial` it prints
`factorial v` and nothing else; otherwise with `biggest` it prints
`nchoosek v (v / 2)`; otherwise with `choosek` it prints `nchoosek v k`;
otherwise it builds and renders the triangle. -/
theorem main_precedence (tabwriter : Int → String → String) (fuel : Nat) (fl : Flags)
    (v : Nat) (arg1 : Option Nat) :
    (fl.fact = true →
      main tabwriter fuel fl (some v) arg1 = .done (bigString (some (factorial v)) ++ "\n")) ∧
    (fl.fact = false → fl.biggest = true →
      main tabwriter fuel fl (some v) arg1
        = .done (bigString (some (nchoosek v (v / 2))) ++ "\n")) ∧
    (fl.fact = false → fl.biggest = false → fl.choose = true → ∀ k, arg1 = some k →
      main tabwriter fuel fl (some v) arg1
        = .done (bigString (some (nchoosek v k)) ++ "\n")) ∧
    (fl.fact = false → fl.biggest = false → fl.choose = false →
      main tabwriter fuel fl (some v) arg1 = renderTriangle tabwriter fuel fl v) := by
  refine ⟨?_, ?_, ?_, ?_⟩
  · intro h
    simp [main, h]
  · intro h1 h2
    simp [main, h1, h2]
  · intro h1 h2 h3 k hk
    simp [main, h1, h2, h3, hk]
  · intro h1 h2 h3
    simp [main, renderTriangle, h1, h2, h3]

theorem main_precedence_witness :
    main (fun _ s => s) 0
        { headers := false, width := 0, format := "text", only := false,
          fact := true, biggest := true, choose := true } (some 0) none = .done "1\n" ∧
    main (fun _ s => s) 0
        { headers := false, width := 0, format := "text", only := false,
          fact := false, biggest := true, choose := true } (some 5) none = .done "10\n" ∧
    main (fun _ s => s) 0
        { headers := false, width := 0, format := "text", only := false,
          fact := false, biggest := false, choose := true } (some 6) (some 2) = .done "15\n" ∧
    main (fun _ s => s) 11
        { headers := false, width := 0, format := "raw", only := false,
          fact := false, biggest := false, choose := false } (some 4) none
      = .done "[1]\n[1 1]\n[1 2 1]\n[1 3 3 1]\n[1 4 6 4 1]\n" := by
  refine ⟨?_, ?_, ?_, ?_⟩
  · exact ((main_precedence (fun _ s => s) 0 _ 0 none).1 rfl).trans (by decide)
  · exact ((main_precedence (fun _ s => s) 0 _ 5 none).2.1 rfl rfl).trans (by decide)
  · exact ((main_precedence (fun _ s => s) 0 _ 6 (some 2)).2.2.1 rfl rfl rfl 2 rfl).trans
      (by decide)
  · exact ((main_precedence (fun _ s => s) 11 _ 4 none).2.2.2 rfl rfl rfl).trans (by decide)

/-! ## Claims C16 and C17: the edges of the 64-bit range -/

/-- C16 (failing input): depth `2 ^ 64 - 1`, both modes.  The length `n + 1`
wraps to `0` and `make` returns an empty slice.  In full mode the first indexed
assignment `p.T[0]` (line 74) is out of range and panics.  In only mode the
row has length `0`, so the assignment `p.T[0][0]` (line 69) is out of range;
the program is still computing `nchoosek(n, 0)` of line 68 before it, which
costs the model no fuel.  With any fuel `NewPascal` panics or is still running,
and never returns a triangle. -/
theorem NewPascal_fails_at_max_depth :
    wrap64 (2 ^ 64 - 1 + 1) = 0 ∧
    (∀ (fuel : Nat) (only : Bool), NewPascal (fuel + 1) (2 ^ 64 - 1) only = .crash) ∧
    (∀ (fuel : Nat) (only : Bool) (p : Pascal), NewPascal fuel (2 ^ 64 - 1) only ≠ .done p) := by
  refine ⟨by decide, fun fuel only => (NewPascal_crash_at_edges fuel only).1, ?_⟩
  intro fuel only p h
  have := NewPascal_done_range fuel (2 ^ 64 - 1) only p (by decide) h
  exact absurd this (by decide)

/-- C17 (failing input): `n = 2 ^ 63`.  The first factor multiplied into the
product is `int64(2 ^ 63) = -2 ^ 63`, not the value of the counter, and the
result `-2 ^ 63 * (2 ^ 63 - 1)!` is negative, not `(2 ^ 63)!`. -/
theorem factorial_negative_at_two_pow_63 :
    toInt64 (2 ^ 63) = -(2 ^ 63) ∧
    factorial (2 ^ 63) = toInt64 (2 ^ 63) * factorial (2 ^ 63 - 1) ∧
    factorial (2 ^ 63 - 1) = ((2 ^ 63 - 1 : Nat).factorial : Int) ∧
    factorial (2 ^ 63) < 0 ∧
    factorial (2 ^ 63) ≠ ((2 ^ 63 : Nat).factorial : Int) := by
  have hneg := factorial_two_pow_63_neg
  refine ⟨toInt64_two_pow_63 _ rfl, factorial_eq_toInt64_mul _ (by norm_num),
    factorial_eq _ (by norm_num), hneg, ?_⟩
  intro h
  rw [h] at hneg
  have hpos : (0 : Int) < ((2 ^ 63 : Nat).factorial : Int) := by
    exact_mod_cast Nat.factorial_pos _
  omega

/-! ## Claim C18: the rule of Pascal -/

/-- C18: for every depth `d`, the entries of the full-mode triangle satisfy the
rule of Pascal: the first and the last entry of every row are `1`, and for
`1 ≤ i ≤ d` and `0 < j < i` entry `(i, j)` is the sum of the entries
`(i - 1, j - 1)` and `(i - 1, j)`.  This holds of every triangle the
construction returns, and one is returned whenever `d + 1` is a valid slice
length. -/
theorem pascal_rule (d : Nat) (hd : d < 2 ^ 64) :
    (d + 1 < 2 ^ 63 →
      ∃ p : Pascal, ∀ fuel, 2 * d + 3 ≤ fuel → NewPascal fuel d false = .done p) ∧
    ∀ (fuel : Nat) (p : Pascal), NewPascal fuel d false = .done p →
      ∀ i, i ≤ d → ∃ row, p.T[i]? = some row ∧ row.length = i + 1 ∧
        row[0]? = some (some 1) ∧ row[i]? = some (some 1) ∧
        ∀ j, 0 < j → j < i →
          ∃ (prev : List (Option Int)) (a b : Int), p.T[i - 1]? = some prev ∧
            prev[j - 1]? = some (some a) ∧ prev[j]? = some (some b) ∧
            row[j]? = some (some (a + b)) := by
  refine ⟨fun h => ⟨_, fun fuel hfuel => NewPascal_full fuel d h hfuel⟩, ?_⟩
  intro fuel p hp i hi
  have hrange := NewPascal_done_range fuel d false p hd hp
  have hp1 := NewPascal_built_eq fuel d false p hrange hp
  simp only [Bool.false_eq_true, if_false] at hp1
  subst hp1
  refine ⟨rowOf i, ?_, length_rowOf i, ?_, ?_, ?_⟩
  · show (rowsOf d)[i]? = some (rowOf i)
    rw [getElem?_rowsOf, if_pos hi]
  · rw [getElem?_rowOf, if_pos (Nat.zero_le i), nchoosek_eq_choose i 0 (by omega) (Nat.zero_le i)]
    simp
  · rw [getElem?_rowOf, if_pos (le_refl i), nchoosek_of_ge_self]
  · intro j hj hji
    refine ⟨rowOf (i - 1), nchoosek (i - 1) (j - 1), nchoosek (i - 1) j, ?_, ?_, ?_, ?_⟩
    · show (rowsOf d)[i - 1]? = some (rowOf (i - 1))
      rw [getElem?_rowsOf, if_pos (by omega)]
    · rw [getElem?_rowOf, if_pos (by omega)]
    · rw [getElem?_rowOf, if_pos (by omega)]
    · rw [getElem?_rowOf, if_pos (by omega), nchoosek_eq_choose i j (by omega) (by omega),
        nchoosek_eq_choose (i - 1) (j - 1) (by omega) (by omega),
        nchoosek_eq_choose (i - 1) j (by omega) (by omega)]
      obtain ⟨i', rfl⟩ : ∃ i', i = i' + 1 := ⟨i - 1, by omega⟩
      obtain ⟨j', rfl⟩ : ∃ j', j = j' + 1 := ⟨j - 1, by omega⟩
      simp only [Nat.add_sub_cancel]
      rw [Nat.choose_succ_succ]
      push_cast
      rfl

theorem pascal_rule_witness :
    (∃ p : Pascal, ∀ fuel, 2 * 4 + 3 ≤ fuel → NewPascal fuel 4 false = .done p) ∧
    ∃ p : Pascal, NewPascal 11 4 false = .done p ∧
      p.T = [[some 1], [some 1, some 1], [some 1, some 2, some 1],
        [some 1, some 3, some 3, some 1], [some 1, some 4, some 6, some 4, some 1]] ∧
      ∀ i, i ≤ 4 → ∃ row, p.T[i]? = some row ∧ row.length = i + 1 ∧
        row[0]? = some (some 1) ∧ row[i]? = some (some 1) ∧
        ∀ j, 0 < j → j < i →
          ∃ (prev : List (Option Int)) (a b : Int), p.T[i - 1]? = some prev ∧
            prev[j - 1]? = some (some a) ∧ prev[j]? = some (some b) ∧
            row[j]? = some (some (a + b)) := by
  have h : NewPascal 11 4 false = .done { Depth := 4, T := [[some 1], [some 1, some 1],
      [some 1, some 2, some 1], [some 1, some 3, some 3, some 1],
      [some 1, some 4, some 6, some 4, some 1]] } := by decide
  exact ⟨(pascal_rule 4 (by decide)).1 (by decide), _, h, rfl, (pascal_rule 4 (by decide)).2 11 _ h⟩

/-! ## Claim C19: the padding counts -/

/-- C19 (counterexample): requested depth 3 in only mode and the width `-1`
(`pascal -o -w -1 3`).  `NewPascal` returns the row `1 3 3 1`, and `ToText`
panics in `tabwriter.NewWriter` on the negative width, so `main` writes
nothing: a renderer fails on a triangle built by `NewPascal`, although no
padding count is negative. -/
theorem ToText_fails_on_negative_width :
    ∃ p : Pascal, NewPascal 5 3 true = .done p ∧
      p.T = [[some 1, some 3, some 3, some 1]] ∧
      p.ToText (-1) false = .crash ∧
      0 ≤ wrapInt (toInt64 p.Depth - ((0 : Nat) : Int)) ∧
      0 ≤ wrapInt (toInt64 (wrap64 (wrap64 (2 * p.Depth) + 1))
            - wrapInt (toInt64 p.Depth - ((0 : Nat) : Int))) ∧
      main (fun _ s => s) 5
        { headers := false, width := -1, format := "text", only := true,
          fact := false, biggest := false, choose := false } (some 3) none = .crash :=
  ⟨{ Depth := 1, T := [[some 1, some 3, some 3, some 1]] }, by decide, rfl, by decide,
    by decide, by decide, by decide⟩

/-- C19 (amended): for every depth `d` and both modes, every row index `i` of a
triangle built by `NewPascal` satisfies `i ≤ Depth`; the leading count
`int(Depth) - i` and the trailing count `(2 * Depth + 1) - (Depth - i)` handed
to `strings.Repeat` are not negative; `ToHTML` returns, and `ToText` returns
exactly when the width is not negative (on a negative width
`tabwriter.NewWriter` panics).  The counts and the renderers are stated for
`Depth` below `2 ^ 58` (a triangle of more rows is beyond what can be
allocated).  A triangle is built for every `d < 2 ^ 58`. -/
theorem renderers_cannot_fail (d : Nat) (only : Bool) (hd : d < 2 ^ 64) :
    (d < 2 ^ 58 →
      ∃ p : Pascal, p.Depth < 2 ^ 58 ∧
        ∀ fuel, 2 * d + 3 ≤ fuel → NewPascal fuel d only = .done p) ∧
    ∀ (fuel : Nat) (p : Pascal), NewPascal fuel d only = .done p →
      (∀ (i : Nat) (row : List (Option Int)), p.T[i]? = some row → i ≤ p.Depth) ∧
      (p.Depth < 2 ^ 58 →
        (∀ (i : Nat) (row : List (Option Int)), p.T[i]? = some row →
          0 ≤ wrapInt (toInt64 p.Depth - (i : Int)) ∧
          0 ≤ wrapInt (toInt64 (wrap64 (wrap64 (2 * p.Depth) + 1))
                - wrapInt (toInt64 p.Depth - (i : Int))) ∧
          wrapInt (toInt64 p.Depth - (i : Int)) = ((p.Depth - i : Nat) : Int) ∧
          wrapInt (toInt64 (wrap64 (wrap64 (2 * p.Depth) + 1))
                - wrapInt (toInt64 p.Depth - (i : Int)))
            = (((2 * p.Depth + 1) - (p.Depth - i) : Nat) : Int) ∧
          ∀ rowHeaders : Bool,
            (∃ s, textRow rowHeaders p.Depth i row = .done s) ∧
            (∃ s, htmlRow rowHeaders p.Depth p.Max i row = .done s)) ∧
        ∀ (rowHeaders : Bool) (width : Int),
          (0 ≤ width → ∃ r, p.ToText width rowHeaders = .done r) ∧
          (width < 0 → p.ToText width rowHeaders = .crash) ∧
          (∃ s, p.ToHTML rowHeaders = .done s)) := by
  constructor
  · intro h58
    cases only
    · exact ⟨{ Depth := d, T := rowsOf d }, h58,
        fun fuel hfuel => NewPascal_full fuel d (by omega) hfuel⟩
    · exact ⟨{ Depth := 1, T := [rowOf d] }, show (1 : Nat) < 2 ^ 58 by decide,
        fun fuel hfuel => NewPascal_only fuel d (by omega) (by omega)⟩
  · intro fuel p hp
    have hrows := NewPascal_built_rows fuel d only p hd hp
    refine ⟨fun i row h => (hrows i row h).1, ?_⟩
    intro hD
    constructor
    · intro i row hrow
      obtain ⟨hlead, htrail⟩ := padding_counts p.Depth i (hrows i row hrow).1 hD
      refine ⟨by rw [hlead]; exact Int.natCast_nonneg _, by rw [htrail]; exact Int.natCast_nonneg _,
        hlead, htrail, ?_⟩
      intro rowHeaders
      obtain ⟨-, -, h3⟩ := render_cells p rowHeaders hD hrows
      exact ⟨⟨_, (h3 i row hrow).1⟩, ⟨_, (h3 i row hrow).2.1⟩⟩
    · intro rowHeaders width
      obtain ⟨h1, h2, -⟩ := render_cells p rowHeaders hD hrows
      exact ⟨fun hw => ⟨_, h1 width hw⟩, ToText_crash_of_neg p width rowHeaders, ⟨_, h2⟩⟩

theorem renderers_cannot_fail_witness :
    (∃ p : Pascal, p.Depth < 2 ^ 58 ∧
      ∀ fuel, 2 * 5 + 3 ≤ fuel → NewPascal fuel 5 true = .done p) ∧
    ∃ p : Pascal, NewPascal 7 5 true = .done p ∧
      p.T = [[some 1, some 5, some 10, some 10, some 5, some 1]] ∧ p.Depth = 1 ∧
      p.ToText 3 false = .done (3, "\t1\t\t5\t\t10\t\t10\t\t5\t\t1\t\t\t\t\n") ∧
      (∀ (i : Nat) (row : List (Option Int)), p.T[i]? = some row → i ≤ p.Depth) ∧
      ((∀ (i : Nat) (row : List (Option Int)), p.T[i]? = some row →
          0 ≤ wrapInt (toInt64 p.Depth - (i : Int)) ∧
          0 ≤ wrapInt (toInt64 (wrap64 (wrap64 (2 * p.Depth) + 1))
                - wrapInt (toInt64 p.Depth - (i : Int))) ∧
          wrapInt (toInt64 p.Depth - (i : Int)) = ((p.Depth - i : Nat) : Int) ∧
          wrapInt (toInt64 (wrap64 (wrap64 (2 * p.Depth) + 1))
                - wrapInt (toInt64 p.Depth - (i : Int)))
            = (((2 * p.Depth + 1) - (p.Depth - i) : Nat) : Int) ∧
          ∀ rowHeaders : Bool,
            (∃ s, textRow rowHeaders p.Depth i row = .done s) ∧
            (∃ s, htmlRow rowHeaders p.Depth p.Max i row = .done s)) ∧
        ∀ (rowHeaders : Bool) (width : Int),
          (0 ≤ width → ∃ r, p.ToText width rowHeaders = .done r) ∧
          (width < 0 → p.ToText width rowHeaders = .crash) ∧
          (∃ s, p.ToHTML rowHeaders = .done s)) := by
  have h : NewPascal 7 5 true
      = .done { Depth := 1, T := [[some 1, some 5, some 10, some 10, some 5, some 1]] } := by
    decide
  exact ⟨(renderers_cannot_fail 5 true (by decide)).1 (by decide), _, h, rfl, rfl, by decide,
    ((renderers_cannot_fail 5 true (by decide)).2 7 _ h).1,
    ((renderers_cannot_fail 5 true (by decide)).2 7 _ h).2 (by decide)⟩

/-! ## Claim C20: the scratch integers -/

theorem Scratch.get_set (s : Scratch) (r q : Ref) (v : Int) :
    (s.set r v).get q = if q = r then v else s.get q := by
  cases r <;> cases q <;> simp [Scratch.get, Scratch.set]

/-- The closure on the state computes `F` of the value its pointer refers to,
returns `big1` or `bigA`, and writes only `bigA` and `bigN`. -/
theorem FState_spec (n : Nat) :
    ∀ (a : Ref) (s : Scratch), (a = .big1 ∨ a = .bigA) →
      (FState n a s).2.get (FState n a s).1 = F n (s.get a) ∧
      ((FState n a s).1 = .big1 ∨ (FState n a s).1 = .bigA) ∧
      ∀ q : Ref, q ≠ .bigA → q ≠ .bigN → (FState n a s).2.get q = s.get q := by
  induction n with
  | zero =>
    intro a s ha
    exact ⟨rfl, ha, fun q _ _ => rfl⟩
  | succ m ih =>
    intro a s ha
    rw [FState, F]
    by_cases h1 : m + 1 ≤ 1
    · rw [if_pos h1, if_pos h1]
      exact ⟨rfl, ha, fun q _ _ => rfl⟩
    · rw [if_neg h1, if_neg h1]
      simp only []
      have haN : a ≠ .bigN := by rcases ha with h | h <;> rw [h] <;> decide
      obtain ⟨h2, h3, h4⟩ := ih .bigA
        ((s.set .bigN (toInt64 (m + 1))).set .bigA
          ((s.set .bigN (toInt64 (m + 1))).get a * (s.set .bigN (toInt64 (m + 1))).get .bigN))
        (Or.inr rfl)
      refine ⟨?_, h3, ?_⟩
      · rw [h2, Scratch.get_set, if_pos rfl, Scratch.get_set, if_neg haN, Scratch.get_set,
          if_pos rfl]
      · intro q hqA hqN
        rw [h4 q hqA hqN, Scratch.get_set, if_neg hqA, Scratch.get_set, if_neg hqN]

theorem factorialState_spec (x : Nat) (s : Scratch) (h1 : s.big1 = 1) :
    (factorialState x s).2.get (factorialState x s).1 = factorial x ∧
    ((factorialState x s).1 = .big1 ∨ (factorialState x s).1 = .bigA) ∧
    ∀ q : Ref, q ≠ .bigA → q ≠ .bigN → (factorialState x s).2.get q = s.get q := by
  unfold factorialState factorial
  by_cases hx : x ≤ 1
  · rw [if_pos hx, if_pos hx]
    exact ⟨h1, Or.inl rfl, fun q _ _ => rfl⟩
  · rw [if_neg hx, if_neg hx]
    obtain ⟨h2, h3, h4⟩ := FState_spec x .big1 s (Or.inl rfl)
    refine ⟨?_, h3, h4⟩
    rw [h2]
    show F x s.big1 = F x 1
    rw [h1]

theorem nchoosekState_spec (n k : Nat) (s : Scratch) (h1 : s.big1 = 1) (hn : n < 2 ^ 64) :
    ∃ (r : Ref) (t : Scratch), nchoosekState n k s = .done (r, t) ∧
      t.get r = nchoosek n k ∧ t.big1 = 1 := by
  unfold nchoosekState nchoosek
  by_cases hk : k ≥ n
  · rw [if_pos hk, if_pos hk]
    exact ⟨.big1, s, rfl, h1, h1⟩
  · rw [if_neg hk, if_neg hk]
    simp only []
    have A := factorialState_spec k s h1
    generalize factorialState k s = r1 at A ⊢
    obtain ⟨a1, -, a3⟩ := A
    have hb1 : (r1.2.set .kbig (r1.2.get r1.1)).big1 = 1 := by
      show (r1.2.set .kbig (r1.2.get r1.1)).get .big1 = 1
      rw [Scratch.get_set, if_neg (by decide), a3 .big1 (by decide) (by decide)]
      exact h1
    have hk1 : (r1.2.set .kbig (r1.2.get r1.1)).get .kbig = factorial k := by
      rw [Scratch.get_set, if_pos rfl, a1]
    have B := factorialState_spec n (r1.2.set .kbig (r1.2.get r1.1)) hb1
    generalize factorialState n (r1.2.set .kbig (r1.2.get r1.1)) = r2 at B ⊢
    obtain ⟨b1, -, b3⟩ := B
    have hb2 : (r2.2.set .nbig (r2.2.get r2.1)).big1 = 1 := by
      show (r2.2.set .nbig (r2.2.get r2.1)).get .big1 = 1
      rw [Scratch.get_set, if_neg (by decide), b3 .big1 (by decide) (by decide)]
      exact hb1
    have hk2 : (r2.2.set .nbig (r2.2.get r2.1)).get .kbig = factorial k := by
      rw [Scratch.get_set, if_neg (by decide), b3 .kbig (by decide) (by decide), hk1]
    have hn2 : (r2.2.set .nbig (r2.2.get r2.1)).get .nbig = factorial n := by
      rw [Scratch.get_set, if_pos rfl, b1]
    have C := factorialState_spec (n - k) (r2.2.set .nbig (r2.2.get r2.1)) hb2
    generalize factorialState (n - k) (r2.2.set .nbig (r2.2.get r2.1)) = r3 at C ⊢
    obtain ⟨c1, -, c3⟩ := C
    have hres : ((r3.2.set .nmkbig (r3.2.get r3.1)).set .resbig
        ((r3.2.set .nmkbig (r3.2.get r3.1)).get .kbig *
          (r3.2.set .nmkbig (r3.2.get r3.1)).get .nmkbig)).get .resbig
        = factorial k * factorial (n - k) := by
      rw [Scratch.get_set, if_pos rfl, Scratch.get_set, if_neg (by decide),
        c3 .kbig (by decide) (by decide), hk2, Scratch.get_set, if_pos rfl, c1]
    have hnb : ((r3.2.set .nmkbig (r3.2.get r3.1)).set .resbig
        ((r3.2.set .nmkbig (r3.2.get r3.1)).get .kbig *
          (r3.2.set .nmkbig (r3.2.get r3.1)).get .nmkbig)).get .nbig
        = factorial n := by
      rw [Scratch.get_set, if_neg (by decide), Scratch.get_set, if_neg (by decide),
        c3 .nbig (by decide) (by decide), hn2]
    have hne : factorial k * factorial (n - k) ≠ 0 :=
      mul_ne_zero (factorial_ne_zero k (by omega)) (factorial_ne_zero (n - k) (by omega))
    rw [hres, if_neg hne, hnb]
    refine ⟨_, _, rfl, ?_, ?_⟩
    · rw [Scratch.get_set, if_pos rfl]
    · show (Scratch.set _ Ref.resbig _).get .big1 = 1
      rw [Scratch.get_set, if_neg (by decide), Scratch.get_set, if_neg (by decide),
        Scratch.get_set, if_neg (by decide), c3 .big1 (by decide) (by decide)]
      exact hb2

/-- C20: with the package-level integers as explicit state, starting from any
contents of `bigA`, `bigN`, `nbig`, `kbig`, `nmkbig` and `resbig` with `big1`
holding `1`, the value at the pointer `factorial` returns is `factorial n` and
the value at the pointer `nchoosek` returns is `nchoosek n k`, whatever those
contents were, and `big1` still holds `1` afterwards. -/
theorem scratch_independent (n k : Nat) (s : Scratch) (h1 : s.big1 = 1) :
    ((factorialState n s).2.get (factorialState n s).1 = factorial n ∧
      (factorialState n s).2.big1 = 1) ∧
    (n < 2 ^ 64 →
      ∃ (r : Ref) (t : Scratch), nchoosekState n k s = .done (r, t) ∧
        t.get r = nchoosek n k ∧ t.big1 = 1) := by
  obtain ⟨a1, -, a3⟩ := factorialState_spec n s h1
  refine ⟨⟨a1, ?_⟩, fun hn => nchoosekState_spec n k s h1 hn⟩
  have := a3 .big1 (by decide) (by decide)
  exact this.trans h1

theorem scratch_independent_witness :
    ((factorialState 5 ⟨1, 7, -3, 11, 13, 17, 19⟩).2.get
        (factorialState 5 ⟨1, 7, -3, 11, 13, 17, 19⟩).1 = factorial 5 ∧
      (factorialState 5 ⟨1, 7, -3, 11, 13, 17, 19⟩).2.big1 = 1) ∧
    (∃ (r : Ref) (t : Scratch), nchoosekState 6 2 ⟨1, 7, -3, 11, 13, 17, 19⟩ = .done (r, t) ∧
        t.get r = nchoosek 6 2 ∧ t.big1 = 1) ∧
    nchoosekState 6 2 ⟨1, 7, -3, 11, 13, 17, 19⟩
      = .done (.resbig, ⟨1, 24, 2, 720, 2, 24, 15⟩) ∧
    nchoosekState 6 2 ⟨1, 0, 0, 0, 0, 0, 0⟩ = .done (.resbig, ⟨1, 24, 2, 720, 2, 24, 15⟩) :=
  ⟨(scratch_independent 5 2 ⟨1, 7, -3, 11, 13, 17, 19⟩ rfl).1,
   (scratch_independent 6 2 ⟨1, 7, -3, 11, 13, 17, 19⟩ rfl).2 (by decide),
   by decide, by decide⟩

end PascalGo
